import Mathlib

/-!
Verification of the hydrology core of the Nexus_AI repository: a shallow
embedding in Lean 4 of the DEM conditioner (`conditioning.py`), the D8 flow
router (`flow.py`), the HAND computer (`hand.py`) and the catchment
delineator (`catchment.py`), together with proofs and refutations of the
specification's claims about them.

Modelling conventions:
* 2-D numpy arrays become `Grid α`: a rectangular `List (List α)` together
  with its shape (`rows`, `cols`); reads go through `Grid.get`, which pairs
  row-major indexing with the usual out-of-range default.
* Elevations (`float64`) become `ℚ`.  Every elevation computation in the
  source is field arithmetic and comparison (the diagonal distance factor
  is the literal `1.414`, not `√2`), so rational arithmetic models it
  exactly.
* The optional `nodata` value / `nodata_mask` arguments keep their
  `Option` shape; `None` means "all cells valid", as in the source.
* Explicit FIFO queues become `List` worklists consumed by fuelled
  recursion; the fuel `rows * cols` is proved sufficient where a claim
  needs the loop to drain.
* Wall-clock statistics (`fill_time`, `resolve_time`) are not modelled.
-/

abbrev Cell : Type := Nat × Nat

/-- A 2-D raster: shape plus row-major data, mirroring a numpy array. -/
structure Grid (α : Type) where
  rows : Nat
  cols : Nat
  data : List (List α)

/-- Read cell `(i, j)`; out-of-range reads give the type's default value
(the algorithms below only read in-range cells). -/
def Grid.get {α : Type} [Inhabited α] (g : Grid α) (i j : Nat) : α :=
  (g.data.getD i []).getD j default

/-- Build a `rows × cols` grid from a cell function. -/
def Grid.ofFn {α : Type} (rows cols : Nat) (f : Nat → Nat → α) : Grid α :=
  ⟨rows, cols, (List.range rows).map (fun i => (List.range cols).map (fun j => f i j))⟩

/-- All cells of a `rows × cols` grid in row-major order — the iteration
order of the source's `for i in range(rows): for j in range(cols)` loops. -/
def cellList (rows cols : Nat) : List Cell :=
  (List.range rows).flatMap (fun i => (List.range cols).map (fun j => (i, j)))

/-- The NoData mask actually used by a function that takes an optional
`nodata_mask` argument: `None` means "no NoData cells" (the source builds
an all-`False` array in that case). -/
def maskOf (nodata_mask : Option (Grid Bool)) (c : Cell) : Bool :=
  match nodata_mask with
  | none => false
  | some m => m.get c.1 c.2

/-! ## `flow.py` — D8 flow direction

`D8_NEIGHBORS`: `(row_offset, col_offset, direction_code, distance_multiplier)`
in the exact order of the source list (N, NE, E, SE, S, SW, W, NW). -/

def D8_NEIGHBORS : List (Int × Int × Nat × ℚ) :=
  [(-1,  0, 64, 1),
   (-1,  1, 128, 1.414),
   ( 0,  1, 1, 1),
   ( 1,  1, 2, 1.414),
   ( 1,  0, 4, 1.0),
   ( 1, -1, 8, 1.414),
   ( 0, -1, 16, 1),
   (-1, -1, 32, 1.414)]

/-- The NoData mask `compute_flow_direction` builds from its optional
`nodata` value: `conditioned_dem == nodata` (all-`False` when `None`). -/
def demNodataMask (conditioned_dem : Grid ℚ) (nodata : Option ℚ) (c : Cell) : Bool :=
  match nodata with
  | none => false
  | some v => conditioned_dem.get c.1 c.2 = v

/-- The per-cell steepest-descent scan of `compute_flow_direction`
(`flow.py` lines 90–117): fold over the 8 neighbours tracking
`(max_slope, flow_dir)`, starting from `(-∞, 0)` (the `-∞` is modelled by
`Option ℚ` with `none = -∞`, so the first in-bounds valid neighbour always
wins the `slope > max_slope` test, whatever its slope — exactly as with
`-np.inf`).  Out-of-bounds and NoData neighbours are skipped. -/
def steepestScan (conditioned_dem : Grid ℚ) (nodata : Option ℚ) (cell_size : ℚ)
    (rows cols : Nat) (i j : Nat) : Nat :=
  (D8_NEIGHBORS.foldl (fun (acc : Option ℚ × Nat) nb =>
    let ni : Int := (i : Int) + nb.1
    let nj : Int := (j : Int) + nb.2.1
    if 0 ≤ ni ∧ ni < (rows : Int) ∧ 0 ≤ nj ∧ nj < (cols : Int) then
      if demNodataMask conditioned_dem nodata (ni.toNat, nj.toNat) then acc
      else
        let distance : ℚ := cell_size * nb.2.2.2
        let slope : ℚ :=
          (conditioned_dem.get i j - conditioned_dem.get ni.toNat nj.toNat) / distance
        match acc.1 with
        | none => (some slope, nb.2.2.1)
        | some m => if slope > m then (some slope, nb.2.2.1) else acc
    else acc) (none, 0)).2

/-- `compute_flow_direction(conditioned_dem, nodata, cell_size)`
(`flow.py` lines 45–127).  NoData cells get code 0; every other cell gets
the code selected by the steepest-descent scan. -/
def compute_flow_direction (conditioned_dem : Grid ℚ) (nodata : Option ℚ)
    (cell_size : ℚ) : Grid Nat :=
  Grid.ofFn conditioned_dem.rows conditioned_dem.cols (fun i j =>
    if demNodataMask conditioned_dem nodata (i, j) then 0
    else steepestScan conditioned_dem nodata cell_size
      conditioned_dem.rows conditioned_dem.cols i j)

/-! ## `conditioning.py` — `fill_depressions` and `resolve_flats` -/

/-- The 3×3 window offsets of a `scipy.ndimage` `size=3` filter — the
window INCLUDES the centre cell `(0, 0)`. -/
def window3x3 : List (Int × Int) :=
  [(-1, -1), (-1, 0), (-1, 1), (0, -1), (0, 0), (0, 1), (1, -1), (1, 0), (1, 1)]

/-- In-bounds values of the 3×3 window centred at `(i, j)`.  A
`mode='constant'` padding of `±inf` never attains a min (`cval=np.inf`) or
max (`cval=-np.inf`), so dropping the padded entries models those filters
exactly. -/
def windowVals (g : Grid ℚ) (rows cols : Nat) (i j : Nat) : List ℚ :=
  (window3x3.filterMap (fun off =>
    let ni : Int := (i : Int) + off.1
    let nj : Int := (j : Int) + off.2
    if 0 ≤ ni ∧ ni < (rows : Int) ∧ 0 ≤ nj ∧ nj < (cols : Int) then
      some (g.get ni.toNat nj.toNat)
    else none))

/-- `ndimage.minimum_filter(filled_dem, size=3, mode='constant', cval=np.inf)`:
minimum over the 3×3 window (centre included; `inf` padding dropped).  The
window always contains the centre, so the fold's base case is unreachable
for in-bounds cells. -/
def minimumFilter3 (g : Grid ℚ) (rows cols : Nat) (i j : Nat) : ℚ :=
  match windowVals g rows cols i j with
  | [] => 0
  | x :: xs => xs.foldl min x

/-- `ndimage.maximum_filter(dem, size=3, mode='constant', cval=-np.inf)`. -/
def maximumFilter3 (g : Grid ℚ) (rows cols : Nat) (i j : Nat) : ℚ :=
  match windowVals g rows cols i j with
  | [] => 0
  | x :: xs => xs.foldl max x

/-- `valid_mask` of `fill_depressions` / `resolve_flats`:
`dem_array != nodata` (all-`True` when `nodata is None`). -/
def validMask (dem_array : Grid ℚ) (nodata : Option ℚ) (c : Cell) : Bool :=
  match nodata with
  | none => true
  | some v => ¬ dem_array.get c.1 c.2 = v

/-- `is_pit` of `fill_depressions` (`conditioning.py` lines 134–143):
`(filled_dem < min_neighbor) & valid_mask`, with the four boundary rows and
columns then forced to `False`.  `min_neighbor` is `minimum_filter(size=3)`,
whose window includes the cell itself. -/
def isPitArr (filled_dem : Grid ℚ) (valid : Cell → Bool) (rows cols : Nat)
    (i j : Nat) : Bool :=
  decide (filled_dem.get i j < minimumFilter3 filled_dem rows cols i j) &&
    valid (i, j) &&
    !(i = 0 || i = rows - 1 || j = 0 || j = cols - 1)

/-- The `generic_filter` of the fill step (`conditioning.py` lines 150–156):
minimum over the window entries different from the centre VALUE.  The
`cval=np.inf` padding entries are candidates too but never attain the
minimum when an in-bounds candidate exists; `none` models the case with no
in-bounds candidate (all-padding: `np.inf`; interior all-equal window:
`np.min` of an empty selection, a `ValueError` in Python).  This branch is
dead code: `isPitArr` is provably all-`False` (see `isPitArr_false`). -/
def neighborMinNe (g : Grid ℚ) (rows cols : Nat) (i j : Nat) : Option ℚ :=
  match (windowVals g rows cols i j).filter (fun x => !(x = g.get i j : Bool)) with
  | [] => none
  | x :: xs => some (xs.foldl min x)

/-- One `fill_depressions` iteration body after a pit was detected
(`filled_dem[is_pit] = neighbor_min[is_pit]`); unreachable, kept for
faithfulness to the source loop. -/
def fillStep (filled_dem : Grid ℚ) (valid : Cell → Bool) : Grid ℚ :=
  Grid.ofFn filled_dem.rows filled_dem.cols (fun i j =>
    if isPitArr filled_dem valid filled_dem.rows filled_dem.cols i j then
      (neighborMinNe filled_dem filled_dem.rows filled_dem.cols i j).getD
        (filled_dem.get i j)
    else filled_dem.get i j)

/-- `np.any(is_pit)` over the grid. -/
def anyPit (filled_dem : Grid ℚ) (valid : Cell → Bool) : Bool :=
  (cellList filled_dem.rows filled_dem.cols).any (fun c =>
    isPitArr filled_dem valid filled_dem.rows filled_dem.cols c.1 c.2)

/-- The `for iteration in range(max_iterations)` loop of `fill_depressions`
(lines 128–163): each pass sets `iterations = iteration + 1`, breaks if no
pit is detected, else fills and continues.  Returns the filled grid and the
final `iterations` count. -/
def fillLoop (valid : Cell → Bool) : Nat → Grid ℚ → Nat → Grid ℚ × Nat
  | 0, g, iters => (g, iters)
  | n + 1, g, iters =>
    if anyPit g valid then fillLoop valid n (fillStep g valid) (iters + 1)
    else (g, iters + 1)

/-- `fill_depressions(dem_array, nodata)` (`conditioning.py` lines 96–200),
returning the filled grid and the `iterations` statistic.  After the loop
the source restores `nodata` on invalid cells (`filled_dem[~valid_mask] =
nodata`; when `nodata is None` the mask selects no cell).  The timing and
fill-depth statistics are not modelled. -/
def fill_depressions (dem_array : Grid ℚ) (nodata : Option ℚ) : Grid ℚ × Nat :=
  let valid := validMask dem_array nodata
  let r := fillLoop valid 100 dem_array 0
  let restored :=
    match nodata with
    | none => r.1
    | some v =>
      Grid.ofFn r.1.rows r.1.cols (fun i j =>
        if valid (i, j) then r.1.get i j else v)
  (restored, r.2)

/-- `_detect_flats(dem, valid_mask)` (`conditioning.py` lines 276–296):
flat iff `max_filter == min_filter == dem` and valid. -/
def detectFlats (dem : Grid ℚ) (valid : Cell → Bool) (i j : Nat) : Bool :=
  decide (maximumFilter3 dem dem.rows dem.cols i j = minimumFilter3 dem dem.rows dem.cols i j)
    && decide (maximumFilter3 dem dem.rows dem.cols i j = dem.get i j)
    && valid (i, j)

/-- `resolve_flats(filled_dem, nodata, eps)` (`conditioning.py` lines
203–273).  The normalized Euclidean distance transform of the valid mask
(`ndimage.distance_transform_edt`, an external scipy routine producing
irrational distances) is abstracted as the parameter `edge_distance`; the
gradient `eps * edge_distance` is added exactly where the source adds it:
on flat, valid cells only.  Every claim about `resolve_flats` below is
proved for all values of `edge_distance`. -/
def resolve_flats (filled_dem : Grid ℚ) (nodata : Option ℚ) (eps : ℚ)
    (edge_distance : Nat → Nat → ℚ) : Grid ℚ :=
  let valid := validMask filled_dem nodata
  Grid.ofFn filled_dem.rows filled_dem.cols (fun i j =>
    if detectFlats filled_dem valid i j && valid (i, j) then
      filled_dem.get i j + eps * edge_distance i j
    else filled_dem.get i j)

/-! ## `hand.py` — `flood_mask` -/

/-- `flood_mask(hand_raster, water_level_m, nodata_mask)` (`hand.py` lines
204–246): `(hand < water_level) & ~nodata_mask`. -/
def flood_mask (hand_raster : Grid ℚ) (water_level_m : ℚ)
    (nodata_mask : Option (Grid Bool)) : Grid Bool :=
  Grid.ofFn hand_raster.rows hand_raster.cols (fun i j =>
    decide (hand_raster.get i j < water_level_m) && !(maskOf nodata_mask (i, j)))

/-! ## `flow.py` — flow accumulation (Kahn's topological sort)

The direction-code → offset dictionary shared verbatim by `flow.py`
(`dir_to_offset`), `hand.py` (`D8_DIR_TO_OFFSET`) and `catchment.py`
(`_build_upstream_map`). -/

def dir_to_offset (code : Nat) : Option (Int × Int) :=
  if code = 64 then some (-1, 0)
  else if code = 128 then some (-1, 1)
  else if code = 1 then some (0, 1)
  else if code = 2 then some (1, 1)
  else if code = 4 then some (1, 0)
  else if code = 8 then some (1, -1)
  else if code = 16 then some (0, -1)
  else if code = 32 then some (-1, -1)
  else none

/-- `0 <= i < rows and 0 <= j < cols` for a signed index pair. -/
def inb (rows cols : Nat) (p : Int × Int) : Bool :=
  decide (0 ≤ p.1) && decide (p.1 < (rows : Int)) &&
    decide (0 ≤ p.2) && decide (p.2 < (cols : Int))

/-- A cell the algorithms consider: in bounds and not NoData. -/
def ValidCell (rows cols : Nat) (mask : Cell → Bool) (c : Cell) : Prop :=
  c.1 < rows ∧ c.2 < cols ∧ mask c = false

instance (rows cols : Nat) (mask : Cell → Bool) (c : Cell) :
    Decidable (ValidCell rows cols mask c) := by
  unfold ValidCell; infer_instance

/-- The downstream edge of the induced flow graph: `effTarget fd mask c` is
the valid, in-bounds cell that valid cell `c` drains to, `none` when `c` is
an outlet (`code 0`), carries an unknown code, drains out of bounds or into
NoData, or is itself out of bounds or NoData.  This is exactly the
condition under which `compute_flow_accumulation` (flow.py lines 242–246),
`compute_hand` (hand.py line 113) and `_build_upstream_map` (catchment.py
line 245) treat `c` as flowing into a downstream cell. -/
def effTarget (rows cols : Nat) (fd : Grid Nat) (mask : Cell → Bool) (c : Cell) : Option Cell :=
  if c.1 < rows ∧ c.2 < cols ∧ mask c = false then
    let code := fd.get c.1 c.2
    if code = 0 then none
    else
      match dir_to_offset code with
      | none => none
      | some off =>
        let t : Int × Int := ((c.1 : Int) + off.1, (c.2 : Int) + off.2)
        if inb rows cols t ∧ mask (t.1.toNat, t.2.toNat) = false then
          some (t.1.toNat, t.2.toNat)
        else none
  else none

/-- The downstream edge as `flow.py`'s graph BUILD sees it (lines 192–210):
identical to `effTarget` except that the build does NOT check the
downstream cell for NoData (that check happens later, in the queue
processing at line 246). -/
def rawTarget (rows cols : Nat) (fd : Grid Nat) (mask : Cell → Bool) (c : Cell) : Option Cell :=
  if c.1 < rows ∧ c.2 < cols ∧ mask c = false then
    let code := fd.get c.1 c.2
    if code = 0 then none
    else
      match dir_to_offset code with
      | none => none
      | some off =>
        let t : Int × Int := ((c.1 : Int) + off.1, (c.2 : Int) + off.2)
        if inb rows cols t then some (t.1.toNat, t.2.toNat)
        else none
  else none

/-- `k`-step iteration of the downstream map: follow the flow path. -/
def dsIter (rows cols : Nat) (fd : Grid Nat) (mask : Cell → Bool) : Nat → Cell → Option Cell
  | 0, c => some c
  | k + 1, c =>
    match effTarget rows cols fd mask c with
    | none => none
    | some d => dsIter rows cols fd mask k d

/-- The flow graph induced by `fd` is acyclic: no valid cell lies on a
directed flow cycle.  (NoData cells have no outgoing edge, so every cycle
of the induced graph consists of valid cells and this is the usual notion
of acyclicity.) -/
def Acyclic (rows cols : Nat) (fd : Grid Nat) (mask : Cell → Bool) : Prop :=
  ∀ c k, ValidCell rows cols mask c → 0 < k → dsIter rows cols fd mask k c ≠ some c

/-- `upstream_cells` of `compute_flow_accumulation` (flow.py lines 172–210):
for each cell the list of cells that flow into it, appended in row-major
scan order.  The build skips NoData sources but, unlike the later queue
processing, does not check the target for NoData. -/
def upstream_cells (fd : Grid Nat) (mask : Cell → Bool) : Cell → List Cell :=
  (cellList fd.rows fd.cols).foldl (fun m c =>
    match rawTarget fd.rows fd.cols fd mask c with
    | none => m
    | some t => fun x => if x = t then m x ++ [c] else m x) (fun _ => [])

/-- The queue-processing loop of `compute_flow_accumulation` (flow.py lines
234–255), fuelled: pop a cell, count it processed, add its accumulation to
its valid downstream cell, decrement that cell's indegree and enqueue it
when the indegree reaches zero.  `rows * cols` fuel is provably enough for
the queue to drain (each cell is enqueued at most once). -/
def kahnLoop (fd : Grid Nat) (mask : Cell → Bool) :
    Nat → List Cell → (Cell → Int) → (Cell → Int) → Nat → (Cell → Int) × Nat
  | 0, _, acc, _, processed => (acc, processed)
  | _ + 1, [], acc, _, processed => (acc, processed)
  | fuel + 1, c :: queue, acc, indeg, processed =>
    match effTarget fd.rows fd.cols fd mask c with
    | none => kahnLoop fd mask fuel queue acc indeg (processed + 1)
    | some t =>
      let acc' : Cell → Int := fun x => if x = t then acc x + acc c else acc x
      let indeg' : Cell → Int := fun x => if x = t then indeg x - 1 else indeg x
      let queue' := if indeg' t = 0 then queue ++ [t] else queue
      kahnLoop fd mask fuel queue' acc' indeg' (processed + 1)

/-- Initial accumulation: 0 on NoData, 1 on valid cells (flow.py 166, 221–224). -/
def accInit (mask : Cell → Bool) (c : Cell) : Int :=
  if mask c then 0 else 1

/-- Initial indegree: `len(upstream_cells[c])` on valid cells, 0 on NoData
(flow.py 214–218). -/
def indegInit (fd : Grid Nat) (mask : Cell → Bool) (c : Cell) : Int :=
  if mask c then 0 else (upstream_cells fd mask c).length

/-- Initial queue: valid cells with indegree 0, in row-major order
(flow.py 227–231). -/
def kahnQueueInit (fd : Grid Nat) (mask : Cell → Bool) : List Cell :=
  (cellList fd.rows fd.cols).filter (fun c =>
    !mask c && indegInit fd mask c = 0)

/-- `compute_flow_accumulation(flow_direction, nodata_mask)` together with
its `cells_processed` statistic (flow.py lines 130–268; the count is
computed at line 237 and reported via logging at line 265). -/
def flowAccumulationAux (flow_direction : Grid Nat)
    (nodata_mask : Option (Grid Bool)) : (Cell → Int) × Nat :=
  let mask := maskOf nodata_mask
  kahnLoop flow_direction mask (flow_direction.rows * flow_direction.cols)
    (kahnQueueInit flow_direction mask)
    (accInit mask) (indegInit flow_direction mask) 0

/-- `compute_flow_accumulation(flow_direction, nodata_mask)` (flow.py lines
130–268): the returned accumulation raster. -/
def compute_flow_accumulation (flow_direction : Grid Nat)
    (nodata_mask : Option (Grid Bool)) : Grid Int :=
  Grid.ofFn flow_direction.rows flow_direction.cols (fun i j =>
    (flowAccumulationAux flow_direction nodata_mask).1 (i, j))

/-- The `cells_processed` count that `compute_flow_accumulation` logs. -/
def flowAccumulationProcessed (flow_direction : Grid Nat)
    (nodata_mask : Option (Grid Bool)) : Nat :=
  (flowAccumulationAux flow_direction nodata_mask).2

/-- Number of valid (non-NoData) cells of the grid. -/
def validCount (rows cols : Nat) (mask : Cell → Bool) : Nat :=
  ((cellList rows cols).filter (fun c => !mask c)).length

/-- The valid cells whose flow direction points to `x`, in row-major order:
the upstream neighbours of a valid cell `x` in the induced flow graph. -/
def upstreamOf (rows cols : Nat) (fd : Grid Nat) (mask : Cell → Bool) (x : Cell) : List Cell :=
  (cellList rows cols).filter (fun u => effTarget rows cols fd mask u = some x)

/-! ## `hand.py` — `compute_hand` -/

/-- The reverse-flow adjacency built by `compute_hand` (hand.py lines
89–115) and, identically, by `catchment.py`'s `_build_upstream_map` (lines
197–250): for each cell the list of cells that flow into it, appended in
row-major scan order.  Unlike `flow.py`'s build, these two check the
downstream cell for NoData, so membership is exactly `effTarget`. -/
def upstream_map (rows cols : Nat) (fd : Grid Nat) (mask : Cell → Bool) :
    Cell → List Cell :=
  (cellList rows cols).foldl (fun m c =>
    match effTarget rows cols fd mask c with
    | none => m
    | some t => fun x => if x = t then m x ++ [c] else m x) (fun _ => [])

/-- The seed condition of `compute_hand` (hand.py lines 122–152): a valid
cell starts with HAND = 0 and is enqueued iff it is a channel cell, an
outlet (`code 0`), or a cell whose downstream neighbour is out of bounds or
NoData.  A valid cell with an unknown non-zero code falls through all three
branches and is not seeded. -/
def isSeed (rows cols : Nat) (fd : Grid Nat) (channel_mask : Grid Bool)
    (mask : Cell → Bool) (c : Cell) : Bool :=
  if mask c then false
  else if channel_mask.get c.1 c.2 then true
  else
    let code := fd.get c.1 c.2
    if code = 0 then true
    else
      match dir_to_offset code with
      | none => false
      | some off =>
        let t : Int × Int := ((c.1 : Int) + off.1, (c.2 : Int) + off.2)
        !(inb rows cols t) || mask (t.1.toNat, t.2.toNat)

/-- Initial queue of `compute_hand`: the seed cells in row-major order. -/
def handQueueInit (rows cols : Nat) (fd : Grid Nat) (channel_mask : Grid Bool)
    (mask : Cell → Bool) : List Cell :=
  (cellList rows cols).filter (fun c => isSeed rows cols fd channel_mask mask c)

/-- State of the HAND BFS: the `hand` array, the `processed` flag array,
the `cells_processed` counter and the FIFO queue. -/
structure HandState where
  hand : Cell → ℚ
  proc : Cell → Bool
  count : Nat
  queue : List Cell

/-- One step of the inner `for ui, uj in upstream_map[(i, j)]` loop of
`compute_hand` (hand.py lines 166–180) for dequeued cell `c`: a
not-yet-processed upstream cell `u` gets
`hand = max(0, elevation_diff + hand[c])`, is marked processed, counted,
and enqueued. -/
def handStep (conditioned_dem : Grid ℚ) (c : Cell) (s : HandState) (u : Cell) : HandState :=
  if s.proc u then s
  else
    let hv : ℚ :=
      max 0 (conditioned_dem.get u.1 u.2 - conditioned_dem.get c.1 c.2 + s.hand c)
    { hand := fun x => if x = u then hv else s.hand x,
      proc := fun x => if x = u then true else s.proc x,
      count := s.count + 1,
      queue := s.queue ++ [u] }

/-- The inner upstream loop of `compute_hand` for dequeued cell `c`. -/
def handInner (conditioned_dem : Grid ℚ) (upstream : Cell → List Cell)
    (c : Cell) (s : HandState) : HandState :=
  (upstream c).foldl (handStep conditioned_dem c) s

/-- The `while queue` loop of `compute_hand` (hand.py lines 162–180),
fuelled; `rows * cols` fuel is provably enough for the queue to drain. -/
def handLoop (conditioned_dem : Grid ℚ) (upstream : Cell → List Cell) :
    Nat → HandState → HandState
  | 0, s => s
  | fuel + 1, s =>
    match s.queue with
    | [] => s
    | c :: rest =>
      handLoop conditioned_dem upstream fuel
        (handInner conditioned_dem upstream c { s with queue := rest })

/-- `compute_hand(conditioned_dem, flow_direction, channel_mask,
nodata_mask)` (hand.py lines 44–201) with its full internal state: the
returned `hand` values, the `processed` flags and the `cells_processed`
count (logged at line 195).  All loops range over `conditioned_dem.shape`,
as in the source.  The `hand` array starts at zero everywhere; seeds keep 0
and are enqueued with their `processed` flag set (lines 154–160). -/
def computeHandAux (conditioned_dem : Grid ℚ) (flow_direction : Grid Nat)
    (channel_mask : Grid Bool) (nodata_mask : Option (Grid Bool)) : HandState :=
  let rows := conditioned_dem.rows
  let cols := conditioned_dem.cols
  let mask := maskOf nodata_mask
  let q0 := handQueueInit rows cols flow_direction channel_mask mask
  handLoop conditioned_dem (upstream_map rows cols flow_direction mask) (rows * cols)
    { hand := fun _ => 0,
      proc := fun c =>
        c.1 < rows && c.2 < cols && isSeed rows cols flow_direction channel_mask mask c,
      count := q0.length,
      queue := q0 }

/-- The HAND raster returned by `compute_hand`. -/
def compute_hand (conditioned_dem : Grid ℚ) (flow_direction : Grid Nat)
    (channel_mask : Grid Bool) (nodata_mask : Option (Grid Bool)) : Grid ℚ :=
  Grid.ofFn conditioned_dem.rows conditioned_dem.cols (fun i j =>
    (computeHandAux conditioned_dem flow_direction channel_mask nodata_mask).hand (i, j))

/-! ## `catchment.py` — `delineate_catchment` and `catchment_to_polygon` -/

/-- State of the catchment BFS: the output mask, the `visited` set and the
FIFO queue. -/
structure CatchState where
  catchment : Cell → Bool
  visited : Cell → Bool
  queue : List Cell

/-- One step of the inner loop of `delineate_catchment`'s BFS (catchment.py
lines 184–188): an unvisited upstream cell is marked in the catchment,
added to `visited` and enqueued. -/
def catchStep (s : CatchState) (u : Cell) : CatchState :=
  if s.visited u then s
  else
    { catchment := fun x => if x = u then true else s.catchment x,
      visited := fun x => if x = u then true else s.visited x,
      queue := s.queue ++ [u] }

/-- The `while queue` BFS of `delineate_catchment` (catchment.py lines
178–188), fuelled: pop a cell; every unvisited upstream cell is marked in
the catchment, added to `visited` and enqueued. -/
def catchmentLoop (upstream : Cell → List Cell) : Nat → CatchState → CatchState
  | 0, s => s
  | fuel + 1, s =>
    match s.queue with
    | [] => s
    | c :: rest =>
      catchmentLoop upstream fuel
        ((upstream c).foldl catchStep { s with queue := rest })

/-- `delineate_catchment(snapped_point, flow_direction, nodata_mask)`
(catchment.py lines 120–194).  Raises `ValueError` — modelled by
`Except.error` — iff the pour point is out of bounds or on NoData
(lines 159–165); otherwise marks the pour point, builds the upstream map
and BFS-traverses upstream from the pour point.  (Grid indices are `ℕ`
here, so the source's `0 <= pour_row` half of the bounds check is
automatic.) -/
def delineate_catchment (snapped_point : Cell) (flow_direction : Grid Nat)
    (nodata_mask : Option (Grid Bool)) : Except String (Grid Bool) :=
  let rows := flow_direction.rows
  let cols := flow_direction.cols
  let mask := maskOf nodata_mask
  if ¬(snapped_point.1 < rows ∧ snapped_point.2 < cols) then
    Except.error "Pour point outside grid bounds"
  else if mask snapped_point then
    Except.error "Pour point is on NoData cell"
  else
    let s := catchmentLoop (upstream_map rows cols flow_direction mask) (rows * cols)
      { catchment := fun x => x = snapped_point,
        visited := fun x => x = snapped_point,
        queue := [snapped_point] }
    Except.ok (Grid.ofFn rows cols (fun i j => s.catchment (i, j)))

/-- A value of a GeoJSON `properties` dict. -/
inductive PValue : Type
  | pInt : Int → PValue
  | pRat : ℚ → PValue
  | pStr : String → PValue
deriving DecidableEq

/-- A GeoJSON geometry as vectorization produces it — an opaque payload for
the claims below, which never inspect coordinates. -/
structure Geom where
  coords : List (List (ℚ × ℚ))
deriving DecidableEq

/-- A GeoJSON `Feature` dict: `{type, geometry, properties}`, with
`properties` kept as a literal key-value list so that the presence or
absence of a key is faithfully modelled. -/
structure Feature where
  type : String
  geometry : Option Geom
  properties : List (String × PValue)
deriving DecidableEq

/-- Python's `round(x, n)`: round half to even at `n` decimal digits. -/
def pyRound (x : ℚ) (n : Nat) : ℚ :=
  let y : ℚ := x * (10 : ℚ) ^ n
  let f : Int := ⌊y⌋
  let r : ℚ := y - f
  let k : Int :=
    if r < 1 / 2 then f
    else if 1 / 2 < r then f + 1
    else if f % 2 = 0 then f else f + 1
  (k : ℚ) / (10 : ℚ) ^ n

/-- `np.sum` of a boolean mask: the number of `True` cells. -/
def count_true (mask : Grid Bool) : Nat :=
  ((cellList mask.rows mask.cols).filter (fun c => mask.get c.1 c.2)).length

/-- An affine geotransform (`rasterio.transform.Affine`): `a` is the pixel
width used by `catchment_to_polygon` for its cell-size estimate. -/
structure AffineT where
  a : ℚ
  b : ℚ
  c : ℚ
  d : ℚ
  e : ℚ
  f : ℚ

/-- `catchment_to_polygon(catchment_mask, transform, crs)` (catchment.py
lines 253–326).  `rasterio.features.shapes` is an external library routine;
its result — one `(geometry, value)` pair per connected region of the
rasterized mask — is abstracted as the `shapes` argument.  The source
returns `None` for an all-`False` mask (line 282–284), else scans `shapes`
for the first pair with value 1 and wraps it in a `Feature` whose
`properties` are `area_cells` (the `True`-cell count), `area_deg2`,
`area_km2_approx` and `crs`; if no pair has value 1 it returns `None`
(line 326). -/
def catchment_to_polygon (catchment_mask : Grid Bool) (transform : AffineT)
    (crs : String) (shapes : List (Geom × Nat)) : Option Feature :=
  if !(cellList catchment_mask.rows catchment_mask.cols).any
      (fun c => catchment_mask.get c.1 c.2) then
    none
  else
    match shapes.find? (fun gv => gv.2 = 1) with
    | none => none
    | some gv =>
      let area_cells : Int := count_true catchment_mask
      let cell_size : ℚ := |transform.a|
      let area_deg2 : ℚ := (area_cells : ℚ) * cell_size ^ 2
      let area_km2_approx : ℚ := area_deg2 * (11132 / 100) * (11132 / 100)
      some
        { type := "Feature",
          geometry := some gv.1,
          properties :=
            [("area_cells", PValue.pInt area_cells),
             ("area_deg2", PValue.pRat (pyRound area_deg2 6)),
             ("area_km2_approx", PValue.pRat (pyRound area_km2_approx 2)),
             ("crs", PValue.pStr crs)] }

/-! ## Proof-side notions: valid direction codes and loop invariants -/

/-- Every cell of the grid carries one of the nine D8 codes — the
well-formedness condition of a `FlowDirectionGrid` in the data model. -/
def codesValid (rows cols : Nat) (fd : Grid Nat) : Prop :=
  ∀ c ∈ cellList rows cols, fd.get c.1 c.2 ∈ [0, 1, 2, 4, 8, 16, 32, 64, 128]

/-- Loop invariant of `compute_flow_accumulation`'s Kahn queue processing.
`popped` is the (ghost) list of cells dequeued so far, in dequeue order:
every cell in `popped ++ queue` is valid and appears at most once; a valid
cell's indegree equals its upstream count minus the pointers already
dequeued; a valid cell's accumulation is 1 plus the accumulations of its
already-dequeued pointers; every pointer of a dequeued or queued cell was
dequeued before it; and every valid cell of indegree 0 has been enqueued. -/
def KahnInv (fd : Grid Nat) (mask : Cell → Bool) (popped queue : List Cell)
    (acc indeg : Cell → Int) : Prop :=
  (popped ++ queue).Nodup ∧
  (∀ c ∈ popped ++ queue, ValidCell fd.rows fd.cols mask c) ∧
  (∀ x, ValidCell fd.rows fd.cols mask x →
    indeg x = ((upstream_cells fd mask x).length : Int)
      - (popped.countP (fun u => effTarget fd.rows fd.cols fd mask u = some x) : Int)) ∧
  (∀ x, ValidCell fd.rows fd.cols mask x →
    acc x = 1 + ((popped.filter (fun u =>
      effTarget fd.rows fd.cols fd mask u = some x)).map acc).sum) ∧
  (∀ x ∈ popped ++ queue, ∀ u, effTarget fd.rows fd.cols fd mask u = some x →
    u ∈ popped) ∧
  (∀ x, ValidCell fd.rows fd.cols mask x → indeg x = 0 → x ∈ popped ++ queue)

/-- Core loop invariant of `compute_hand`'s BFS from the drainage seeds
(everything except the dequeued-cell closure property, which the inner
upstream fold establishes only at its end).  `popped` is the (ghost) list
of dequeued cells in dequeue order; the `processed` flags are exactly
`popped ++ queue`; `cells_processed` counts the flagged cells; seeds carry
HAND 0; a flagged non-seed cell got its HAND from its downstream cell,
dequeued before it; HAND is nowhere negative. -/
def HandInvCore (conditioned_dem : Grid ℚ) (fd : Grid Nat) (channel_mask : Grid Bool)
    (mask : Cell → Bool) (popped : List Cell) (s : HandState) : Prop :=
  (popped ++ s.queue).Nodup ∧
  (∀ c ∈ popped ++ s.queue, ValidCell conditioned_dem.rows conditioned_dem.cols mask c) ∧
  (∀ x, s.proc x = true ↔ x ∈ popped ++ s.queue) ∧
  s.count = popped.length + s.queue.length ∧
  (∀ x, ValidCell conditioned_dem.rows conditioned_dem.cols mask x →
    isSeed conditioned_dem.rows conditioned_dem.cols fd channel_mask mask x = true →
    s.proc x = true) ∧
  (∀ x, s.proc x = true →
    isSeed conditioned_dem.rows conditioned_dem.cols fd channel_mask mask x = true →
    s.hand x = 0) ∧
  (∀ x, s.proc x = true →
    isSeed conditioned_dem.rows conditioned_dem.cols fd channel_mask mask x = false →
    ∃ d, effTarget conditioned_dem.rows conditioned_dem.cols fd mask x = some d ∧
      d ∈ popped ∧
      s.hand x = max 0 (conditioned_dem.get x.1 x.2 - conditioned_dem.get d.1 d.2
        + s.hand d)) ∧
  (∀ x, 0 ≤ s.hand x)

/-- Full loop invariant of `compute_hand`'s BFS: the core invariant plus
the closure property that every pointer of a dequeued cell is flagged. -/
def HandInv (conditioned_dem : Grid ℚ) (fd : Grid Nat) (channel_mask : Grid Bool)
    (mask : Cell → Bool) (popped : List Cell) (s : HandState) : Prop :=
  HandInvCore conditioned_dem fd channel_mask mask popped s ∧
  (∀ d ∈ popped, ∀ u, effTarget conditioned_dem.rows conditioned_dem.cols fd mask u
    = some d → s.proc u = true)

/-! ## Basic lemmas about grids and cell enumeration -/

theorem Grid.get_ofFn {α : Type} [Inhabited α] (rows cols : Nat) (f : Nat → Nat → α)
    (i j : Nat) (hi : i < rows) (hj : j < cols) :
    (Grid.ofFn rows cols f).get i j = f i j := by
  simp [Grid.ofFn, Grid.get, List.getD, hi, hj]

theorem mem_cellList (rows cols : Nat) (c : Cell) :
    c ∈ cellList rows cols ↔ c.1 < rows ∧ c.2 < cols := by
  obtain ⟨i, j⟩ := c
  simp [cellList]

theorem cellList_succ (rows cols : Nat) :
    cellList (rows + 1) cols
      = cellList rows cols ++ (List.range cols).map (fun j => (rows, j)) := by
  simp [cellList, List.range_succ]

theorem cellList_nodup (rows cols : Nat) : (cellList rows cols).Nodup := by
  induction rows with
  | zero => simp [cellList]
  | succ n ih =>
    rw [cellList_succ]
    refine List.Nodup.append ih ?_ ?_
    · exact List.Nodup.map (fun a b h => by simpa using congrArg Prod.snd h)
        (List.nodup_range cols)
    · intro c hc₁ hc₂
      have h1 : c.1 < n := ((mem_cellList n cols c).1 hc₁).1
      simp only [List.mem_map] at hc₂
      obtain ⟨j, _, rfl⟩ := hc₂
      exact absurd h1 (by simp)

theorem length_cellList (rows cols : Nat) :
    (cellList rows cols).length = rows * cols := by
  induction rows with
  | zero => simp [cellList]
  | succ n ih =>
    rw [cellList_succ, List.length_append, ih]
    simp [Nat.succ_mul]

theorem Grid.get_ofFn_full {α : Type} [Inhabited α] (rows cols : Nat) (f : Nat → Nat → α)
    (i j : Nat) :
    (Grid.ofFn rows cols f).get i j = if i < rows ∧ j < cols then f i j else default := by
  show ((((List.range rows).map (fun i => (List.range cols).map (fun j => f i j))).getD
    i []).getD j default) = _
  rcases Nat.lt_or_ge i rows with hi | hi
  · rw [List.getD_eq_getElem ((List.range rows).map
      (fun i => (List.range cols).map (fun j => f i j))) [] (by simpa using hi),
      List.getElem_map, List.getElem_range]
    rcases Nat.lt_or_ge j cols with hj | hj
    · rw [List.getD_eq_getElem ((List.range cols).map (fun j => f i j)) default
        (by simpa using hj), List.getElem_map, List.getElem_range, if_pos ⟨hi, hj⟩]
    · rw [List.getD_eq_default ((List.range cols).map (fun j => f i j)) default
        (by simpa using hj), if_neg (by omega)]
  · rw [List.getD_eq_default ((List.range rows).map
      (fun i => (List.range cols).map (fun j => f i j))) [] (by simpa using hi),
      if_neg (by omega)]
    simp

theorem Grid.get_ofFn_oob {α : Type} [Inhabited α] (rows cols : Nat) (f : Nat → Nat → α)
    (i j : Nat) (h : rows ≤ i ∨ cols ≤ j) :
    (Grid.ofFn rows cols f).get i j = default := by
  rw [Grid.get_ofFn_full, if_neg (by omega)]

theorem foldl_min_le_init (xs : List ℚ) (x : ℚ) : xs.foldl min x ≤ x := by
  induction xs generalizing x with
  | nil => exact le_refl x
  | cons a as ih => exact le_trans (ih (min x a)) (min_le_left x a)

theorem foldl_min_le_mem (xs : List ℚ) (x y : ℚ) (hy : y ∈ xs) : xs.foldl min x ≤ y := by
  induction xs generalizing x with
  | nil => cases hy
  | cons a as ih =>
    rcases List.mem_cons.1 hy with rfl | hy'
    · exact le_trans (foldl_min_le_init as (min x y)) (min_le_right x y)
    · exact ih (min x a) hy'

/-- The centre value belongs to the 3×3 window of an in-bounds cell. -/
theorem center_mem_windowVals (g : Grid ℚ) (rows cols i j : Nat)
    (hi : i < rows) (hj : j < cols) : g.get i j ∈ windowVals g rows cols i j := by
  have h0 : ((0 : Int), (0 : Int)) ∈ window3x3 := by simp [window3x3]
  refine List.mem_filterMap.2 ⟨((0 : Int), (0 : Int)), h0, ?_⟩
  have hc : (0 : Int) ≤ (i : Int) + 0 ∧ (i : Int) + 0 < (rows : Int) ∧
      (0 : Int) ≤ (j : Int) + 0 ∧ (j : Int) + 0 < (cols : Int) := by
    refine ⟨by omega, by exact_mod_cast (by omega : (i : Int) < rows), by omega,
      by exact_mod_cast (by omega : (j : Int) < cols)⟩
  simp only [if_pos hc]
  norm_num

/-- `minimum_filter(size=3)` includes the centre cell in its window, so its
value never exceeds the centre value. -/
theorem minimumFilter3_le_center (g : Grid ℚ) (rows cols i j : Nat)
    (hi : i < rows) (hj : j < cols) :
    minimumFilter3 g rows cols i j ≤ g.get i j := by
  have hmem := center_mem_windowVals g rows cols i j hi hj
  rcases hw : windowVals g rows cols i j with _ | ⟨x, xs⟩
  · rw [hw] at hmem; cases hmem
  · rw [hw] at hmem
    rw [minimumFilter3, hw]
    rcases List.mem_cons.1 hmem with he | hm
    · rw [he]; exact foldl_min_le_init xs x
    · exact foldl_min_le_mem xs x _ hm

/-- The pit test of `fill_depressions` compares the cell against the
minimum of a window that contains the cell itself, so it never fires. -/
theorem isPitArr_false (g : Grid ℚ) (valid : Cell → Bool) (rows cols i j : Nat)
    (hi : i < rows) (hj : j < cols) : isPitArr g valid rows cols i j = false := by
  have h := minimumFilter3_le_center g rows cols i j hi hj
  simp [isPitArr, not_lt.2 h]

theorem anyPit_false (g : Grid ℚ) (valid : Cell → Bool) : anyPit g valid = false := by
  rw [anyPit, List.any_eq_false]
  intro c hc
  have hb := (mem_cellList g.rows g.cols c).1 hc
  simp [isPitArr_false g valid g.rows g.cols c.1 c.2 hb.1 hb.2]

/-- `fill_depressions` never detects a pit: its loop stops after one
iteration and the grid comes back unchanged (here for `nodata=None`, where
the final NoData restore touches nothing). -/
theorem fill_depressions_noop (g : Grid ℚ) : fill_depressions g none = (g, 1) := by
  have h : fillLoop (validMask g none) 100 g 0 = (g, 1) := by
    show fillLoop (validMask g none) (99 + 1) g 0 = (g, 1)
    rw [fillLoop, anyPit_false]
    simp
  simp [fill_depressions, h]

/-! ## Invariants of the HAND BFS and the catchment BFS -/

/-- The HAND BFS writes `hand` only at cells it marks processed, so
unprocessed cells keep their initial value 0 (fold version). -/
theorem handFold_unproc_zero (conditioned_dem : Grid ℚ) (c : Cell) (l : List Cell)
    (s : HandState) (hs : ∀ x, s.proc x = false → s.hand x = 0) :
    ∀ x, ((l.foldl (handStep conditioned_dem c) s).proc x = false →
      (l.foldl (handStep conditioned_dem c) s).hand x = 0) := by
  induction l generalizing s with
  | nil => exact hs
  | cons u us ih =>
    rw [List.foldl_cons]
    apply ih
    intro x hx
    rw [handStep] at hx ⊢
    by_cases hp : s.proc u
    · rw [if_pos hp] at hx ⊢; exact hs x hx
    · rw [if_neg hp] at hx ⊢
      simp only at hx ⊢
      by_cases hxu : x = u
      · rw [if_pos hxu] at hx; cases hx
      · rw [if_neg hxu] at hx ⊢; exact hs x hx

/-- Loop version of `handFold_unproc_zero`. -/
theorem handLoop_unproc_zero (conditioned_dem : Grid ℚ) (upstream : Cell → List Cell)
    (fuel : Nat) (s : HandState) (hs : ∀ x, s.proc x = false → s.hand x = 0) :
    ∀ x, (handLoop conditioned_dem upstream fuel s).proc x = false →
      (handLoop conditioned_dem upstream fuel s).hand x = 0 := by
  induction fuel generalizing s with
  | zero => exact hs
  | succ n ih =>
    rw [handLoop]
    rcases hq : s.queue with _ | ⟨c, rest⟩
    · exact hs
    · exact ih _ (handFold_unproc_zero conditioned_dem c _ _ hs)

/-- The catchment BFS only ever sets mask bits, so a bit that is true stays
true (fold version). -/
theorem catchFold_mono (l : List Cell) (s : CatchState) (p : Cell)
    (hp : s.catchment p = true) : (l.foldl catchStep s).catchment p = true := by
  induction l generalizing s with
  | nil => exact hp
  | cons u us ih =>
    rw [List.foldl_cons]
    apply ih
    rw [catchStep]
    by_cases hv : s.visited u
    · rw [if_pos hv]; exact hp
    · rw [if_neg hv]
      simp only
      by_cases hpu : p = u
      · rw [if_pos hpu]
      · rw [if_neg hpu]; exact hp

/-- Loop version of `catchFold_mono`. -/
theorem catchmentLoop_mono (upstream : Cell → List Cell) (fuel : Nat) (s : CatchState)
    (p : Cell) (hp : s.catchment p = true) :
    (catchmentLoop upstream fuel s).catchment p = true := by
  induction fuel generalizing s with
  | zero => exact hp
  | succ n ih =>
    rw [catchmentLoop]
    rcases hq : s.queue with _ | ⟨c, rest⟩
    · exact hp
    · exact ih _ (catchFold_mono _ _ p hp)

/-! ## Claim theorems: C10, C8 -/

/-- C10: in the grid returned by `compute_hand`, every valid cell that the
upstream traversal never reaches from the channel/outlet seeds (its
`processed` flag is still `False` at the end, as happens when the flow
graph contains a cycle) has `hand` exactly 0 — the same value a channel or
outlet seed cell carries — so nothing in the output distinguishes such
unreached cells. -/
theorem compute_hand_unreached_cell_is_zero (conditioned_dem : Grid ℚ)
    (flow_direction : Grid Nat) (channel_mask : Grid Bool)
    (nodata_mask : Option (Grid Bool)) (c : Cell)
    (h1 : c.1 < conditioned_dem.rows) (h2 : c.2 < conditioned_dem.cols)
    (h3 : maskOf nodata_mask c = false)
    (h4 : (computeHandAux conditioned_dem flow_direction channel_mask nodata_mask).proc c
      = false) :
    (compute_hand conditioned_dem flow_direction channel_mask nodata_mask).get c.1 c.2
      = 0 := by
  rw [compute_hand, Grid.get_ofFn _ _ _ _ _ h1 h2]
  rw [computeHandAux] at h4 ⊢
  exact handLoop_unproc_zero _ _ _ _ (fun x _ => rfl) (c.1, c.2) h4

/-- C10 witness: on the 1×2 DEM `[[1, 2]]` whose flow-direction grid
`[[1, 16]]` is a 2-cycle (each cell points at the other) with no channel
cell, cell (0,0) is valid, never processed, and gets HAND 0. -/
theorem compute_hand_unreached_cell_is_zero_witness :
    (compute_hand ⟨1, 2, [[1, 2]]⟩ ⟨1, 2, [[1, 16]]⟩ ⟨1, 2, [[false, false]]⟩ none).get 0 0
      = 0 :=
  compute_hand_unreached_cell_is_zero ⟨1, 2, [[1, 2]]⟩ ⟨1, 2, [[1, 16]]⟩
    ⟨1, 2, [[false, false]]⟩ none (0, 0) (by decide) (by decide) (by decide) (by decide)

/-- C8: `delineate_catchment` errors exactly when the pour point is out of
the grid bounds or on a NoData cell, and any successfully returned
catchment mask is `True` at the pour point itself. -/
theorem delineate_catchment_spec (snapped_point : Cell) (flow_direction : Grid Nat)
    (nodata_mask : Option (Grid Bool)) :
    ((∃ e, delineate_catchment snapped_point flow_direction nodata_mask
        = Except.error e) ↔
      (¬(snapped_point.1 < flow_direction.rows ∧ snapped_point.2 < flow_direction.cols) ∨
        maskOf nodata_mask snapped_point = true)) ∧
    (∀ m, delineate_catchment snapped_point flow_direction nodata_mask = Except.ok m →
      m.get snapped_point.1 snapped_point.2 = true) := by
  rw [delineate_catchment]
  by_cases hb : snapped_point.1 < flow_direction.rows ∧ snapped_point.2 < flow_direction.cols
  · rw [if_neg (by simpa using hb)]
    by_cases hm : maskOf nodata_mask snapped_point
    · rw [if_pos hm]
      constructor
      · simp [hm]
      · intro m hmk; cases hmk
    · rw [if_neg hm]
      constructor
      · constructor
        · rintro ⟨e, he⟩; cases he
        · rintro (h | h)
          · exact absurd hb h
          · rw [h] at hm; exact absurd rfl hm
      · intro m hmk
        have hm' : m = Grid.ofFn flow_direction.rows flow_direction.cols (fun i j =>
            (catchmentLoop
              (upstream_map flow_direction.rows flow_direction.cols flow_direction
                (maskOf nodata_mask))
              (flow_direction.rows * flow_direction.cols)
              { catchment := fun x => x = snapped_point,
                visited := fun x => x = snapped_point,
                queue := [snapped_point] }).catchment (i, j)) := by
          cases hmk; rfl
        rw [hm', Grid.get_ofFn _ _ _ _ _ hb.1 hb.2]
        exact catchmentLoop_mono _ _ _ _ (by simp)
  · rw [if_pos (by simpa using hb)]
    constructor
    · simp [hb]
    · intro m hmk; cases hmk

/-! ## Claim theorems: C1, C3, C7, C9 -/

/-- C1 (refuting evaluation): on the conditioned 1×2 grid `[[1, 2]]` —
pit-free and flat-free, so a fixed point of the conditioner — cell (0,0)
has no neighbour of positive slope (its only neighbour is strictly
higher), yet `compute_flow_direction` assigns it code 1 (East), pointing
at a strictly higher cell.  The `max_slope = -np.inf` initialisation never
requires the selected slope to be positive, contradicting both halves of
the claim (and the source's own comment "If no downslope neighbor found,
flow_dir = 0"). -/
theorem compute_flow_direction_uphill_at_sink :
    (compute_flow_direction ⟨1, 2, [[1, 2]]⟩ none 30).get 0 0 = 1 ∧
    ¬((⟨1, 2, [[1, 2]]⟩ : Grid ℚ).get 0 1 ≤ (⟨1, 2, [[1, 2]]⟩ : Grid ℚ).get 0 0) := by
  constructor
  · norm_num [compute_flow_direction, Grid.ofFn, Grid.get, steepestScan, D8_NEIGHBORS,
      demNodataMask, List.range_succ]
  · norm_num [Grid.get]

/-- C3 (refuting evaluation): on the 3×3 grid with a genuine pit at its
centre, `fill_depressions` stops after 1 iteration (< the cap of 100,
i.e. it "detected no remaining pits") yet returns the grid unchanged: the
centre cell is still strictly lower than all eight of its neighbours.  The
pit detector compares each cell with the minimum of a 3×3 window that
includes the cell itself, so it can never fire. -/
theorem fill_depressions_leaves_pit :
    fill_depressions ⟨3, 3, [[5, 5, 5], [5, 1, 5], [5, 5, 5]]⟩ none
      = (⟨3, 3, [[5, 5, 5], [5, 1, 5], [5, 5, 5]]⟩, 1) ∧
    ((⟨3, 3, [[5, 5, 5], [5, 1, 5], [5, 5, 5]]⟩ : Grid ℚ).get 1 1 <
      (⟨3, 3, [[5, 5, 5], [5, 1, 5], [5, 5, 5]]⟩ : Grid ℚ).get 0 0) ∧
    ((⟨3, 3, [[5, 5, 5], [5, 1, 5], [5, 5, 5]]⟩ : Grid ℚ).get 1 1 <
      (⟨3, 3, [[5, 5, 5], [5, 1, 5], [5, 5, 5]]⟩ : Grid ℚ).get 0 1) ∧
    ((⟨3, 3, [[5, 5, 5], [5, 1, 5], [5, 5, 5]]⟩ : Grid ℚ).get 1 1 <
      (⟨3, 3, [[5, 5, 5], [5, 1, 5], [5, 5, 5]]⟩ : Grid ℚ).get 0 2) ∧
    ((⟨3, 3, [[5, 5, 5], [5, 1, 5], [5, 5, 5]]⟩ : Grid ℚ).get 1 1 <
      (⟨3, 3, [[5, 5, 5], [5, 1, 5], [5, 5, 5]]⟩ : Grid ℚ).get 1 0) ∧
    ((⟨3, 3, [[5, 5, 5], [5, 1, 5], [5, 5, 5]]⟩ : Grid ℚ).get 1 1 <
      (⟨3, 3, [[5, 5, 5], [5, 1, 5], [5, 5, 5]]⟩ : Grid ℚ).get 1 2) ∧
    ((⟨3, 3, [[5, 5, 5], [5, 1, 5], [5, 5, 5]]⟩ : Grid ℚ).get 1 1 <
      (⟨3, 3, [[5, 5, 5], [5, 1, 5], [5, 5, 5]]⟩ : Grid ℚ).get 2 0) ∧
    ((⟨3, 3, [[5, 5, 5], [5, 1, 5], [5, 5, 5]]⟩ : Grid ℚ).get 1 1 <
      (⟨3, 3, [[5, 5, 5], [5, 1, 5], [5, 5, 5]]⟩ : Grid ℚ).get 2 1) ∧
    ((⟨3, 3, [[5, 5, 5], [5, 1, 5], [5, 5, 5]]⟩ : Grid ℚ).get 1 1 <
      (⟨3, 3, [[5, 5, 5], [5, 1, 5], [5, 5, 5]]⟩ : Grid ℚ).get 2 2) := by
  refine ⟨fill_depressions_noop _, ?_⟩
  norm_num [Grid.get]

/-- C7 counterexample: with the single-cell HAND raster `[[5]]` and water
levels 1 < 2, the two flood masks are identical (both all-`False`), so
`flood_mask(hand, 2)` is NOT a strict superset of `flood_mask(hand, 1)`. -/
theorem flood_mask_not_strictly_monotone :
    (1 : ℚ) < 2 ∧
    flood_mask ⟨1, 1, [[5]]⟩ 2 none = flood_mask ⟨1, 1, [[5]]⟩ 1 none := by
  constructor
  · norm_num
  · simp [flood_mask, Grid.ofFn, Grid.get, maskOf, List.range_succ,
      eq_false (by norm_num : ¬((5 : ℚ) < 2)), eq_false (by norm_num : ¬((5 : ℚ) < 1))]

/-- C7 amended: `flood_mask` is monotone in the water level — for
`w1 < w2` every cell flooded at `w1` is flooded at `w2` (the superset need
not be strict: a raster with no HAND value in `[w1, w2)` gives equal
masks). -/
theorem flood_mask_monotone (hand_raster : Grid ℚ) (nodata_mask : Option (Grid Bool))
    (w1 w2 : ℚ) (h : w1 < w2) (i j : Nat)
    (hm : (flood_mask hand_raster w1 nodata_mask).get i j = true) :
    (flood_mask hand_raster w2 nodata_mask).get i j = true := by
  rcases Nat.lt_or_ge i hand_raster.rows with hi | hi
  · rcases Nat.lt_or_ge j hand_raster.cols with hj | hj
    · rw [flood_mask, Grid.get_ofFn _ _ _ _ _ hi hj] at hm ⊢
      simp only [Bool.and_eq_true, decide_eq_true_eq] at hm ⊢
      exact ⟨lt_trans hm.1 h, hm.2⟩
    · rw [flood_mask, Grid.get_ofFn_oob _ _ _ _ _ (Or.inr hj)] at hm
      exact absurd hm (by decide)
  · rw [flood_mask, Grid.get_ofFn_oob _ _ _ _ _ (Or.inl hi)] at hm
    exact absurd hm (by decide)

/-- C7 amended, witness: on the HAND raster `[[0]]` with levels 1 < 2, the
cell flooded at level 1 is flooded at level 2. -/
theorem flood_mask_monotone_witness :
    (flood_mask ⟨1, 1, [[0]]⟩ 2 none).get 0 0 = true :=
  flood_mask_monotone ⟨1, 1, [[0]]⟩ none 1 2 one_lt_two 0 0 (by
    simp [flood_mask, Grid.ofFn, Grid.get, maskOf, List.range_succ])

/-- C9 counterexample: on the 1×1 all-`True` mask (with a value-1 shape
from the vectorizer), `catchment_to_polygon` returns a feature whose
`properties` have NO `num_cells` key at all (the cell count is stored
under `area_cells`), so the claimed round trip
`properties.num_cells == count_true(mask)` fails. -/
theorem catchment_to_polygon_no_num_cells_key :
    Option.map (fun f => f.properties.find? (fun kv => kv.1 = "num_cells"))
      (catchment_to_polygon ⟨1, 1, [[true]]⟩ ⟨1, 0, 0, 0, 1, 0⟩ "EPSG:4326"
        [(⟨[]⟩, 1)])
      = some none := by
  rfl

/-- C9 amended: for every mask with at least one `True` cell,
`catchment_to_polygon` returns a GeoJSON Feature whose properties contain
an `area_cells` field (not `num_cells`) equal to the number of `True`
cells, provided the vectorizer returned some value-1 shape (which
`rasterio.features.shapes` does for a non-empty mask); for an all-`False`
mask it returns `None`. -/
theorem catchment_to_polygon_area_cells (catchment_mask : Grid Bool)
    (transform : AffineT) (crs : String) (shapes : List (Geom × Nat)) :
    ((cellList catchment_mask.rows catchment_mask.cols).any
        (fun c => catchment_mask.get c.1 c.2) = true →
      shapes.find? (fun gv => gv.2 = 1) ≠ none →
      Option.map (fun f => f.properties.find? (fun kv => kv.1 = "area_cells"))
          (catchment_to_polygon catchment_mask transform crs shapes)
        = some (some ("area_cells", PValue.pInt (count_true catchment_mask)))) ∧
    ((cellList catchment_mask.rows catchment_mask.cols).any
        (fun c => catchment_mask.get c.1 c.2) = false →
      catchment_to_polygon catchment_mask transform crs shapes = none) := by
  constructor
  · intro hany hfind
    rw [catchment_to_polygon, hany]
    rcases hf : shapes.find? (fun gv => gv.2 = 1) with _ | gv
    · exact absurd hf hfind
    · simp [hf]
  · intro hnone
    rw [catchment_to_polygon, hnone]
    simp

/-- C9 amended, witness: the 1×1 all-`True` mask gives a feature with
`area_cells` equal to its `True`-cell count. -/
theorem catchment_to_polygon_area_cells_witness :
    Option.map (fun f => f.properties.find? (fun kv => kv.1 = "area_cells"))
      (catchment_to_polygon ⟨1, 1, [[true]]⟩ ⟨1, 0, 0, 0, 1, 0⟩ "EPSG:4326"
        [(⟨[]⟩, 1)])
      = some (some ("area_cells", PValue.pInt (count_true ⟨1, 1, [[true]]⟩))) :=
  (catchment_to_polygon_area_cells ⟨1, 1, [[true]]⟩ ⟨1, 0, 0, 0, 1, 0⟩ "EPSG:4326"
    [(⟨[]⟩, 1)]).1 (by decide) (by decide)

/-! ## Claim C4: the 3×3 pit scenario -/

set_option maxHeartbeats 2000000 in
/-- The 3×3 pit DEM has no flat cell, so `resolve_flats` returns it
unchanged, whatever `eps` and the distance transform are. -/
theorem resolve_flats_pit3x3 (eps : ℚ) (edge_distance : Nat → Nat → ℚ) :
    resolve_flats ⟨3, 3, [[9, 8, 9], [8, 1, 8], [9, 8, 9]]⟩ none eps edge_distance
      = ⟨3, 3, [[9, 8, 9], [8, 1, 8], [9, 8, 9]]⟩ := by
  norm_num [resolve_flats, Grid.ofFn, detectFlats, maximumFilter3, minimumFilter3,
    windowVals, window3x3, Grid.get, validMask, List.range_succ, List.filterMap_cons,
    List.filterMap_nil]

/-- D8 directions of the 3×3 pit DEM: all eight boundary cells point at the
centre, and the centre — a true sink — points North-East (code 128) at a
strictly higher cell, because the steepest-descent scan never requires a
positive slope. -/
theorem flow_direction_pit3x3 :
    compute_flow_direction ⟨3, 3, [[9, 8, 9], [8, 1, 8], [9, 8, 9]]⟩ none 30
      = ⟨3, 3, [[2, 4, 8], [1, 128, 16], [128, 64, 32]]⟩ := by
  norm_num [compute_flow_direction, Grid.ofFn, Grid.get, steepestScan, D8_NEIGHBORS,
    demNodataMask, List.range_succ]

/-- C4 (refuting evaluation): running the full pipeline
(`fill_depressions`, `resolve_flats`, `compute_flow_direction`,
`compute_flow_accumulation`) on the 3×3 DEM with a strictly lower centre
and values strictly decreasing toward the centre on all sides yields
`flow_accumulation[1,1] == 8`, not the claimed 9: the centre's uphill
direction code 128 creates a 2-cycle with cell (0,2), so the centre never
reaches indegree 0 and cell (0,2)'s contribution is silently dropped.
The statement quantifies over every `eps` and every distance transform the
flat resolver could use. -/
theorem pipeline_pit3x3_accumulation_is_8 (eps : ℚ) (edge_distance : Nat → Nat → ℚ) :
    (compute_flow_accumulation
      (compute_flow_direction
        (resolve_flats
          (fill_depressions ⟨3, 3, [[9, 8, 9], [8, 1, 8], [9, 8, 9]]⟩ none).1
          none eps edge_distance)
        none 30)
      none).get 1 1 = 8 := by
  have h1 : (fill_depressions ⟨3, 3, [[9, 8, 9], [8, 1, 8], [9, 8, 9]]⟩ none).1
      = ⟨3, 3, [[9, 8, 9], [8, 1, 8], [9, 8, 9]]⟩ := by
    rw [fill_depressions_noop]
  rw [h1, resolve_flats_pit3x3, flow_direction_pit3x3]
  decide

/-- C8 witness: on a 1×1 grid, pour point (5,0) errors (out of bounds) and
pour point (0,0) succeeds with the pour point inside the mask. -/
theorem delineate_catchment_spec_witness :
    delineate_catchment (5, 0) ⟨1, 1, [[0]]⟩ none
        = Except.error "Pour point outside grid bounds" ∧
    (delineate_catchment (0, 0) ⟨1, 1, [[0]]⟩ none).toOption.map
        (fun m => m.get 0 0) = some true := by
  refine ⟨rfl, ?_⟩
  rcases hE : delineate_catchment (0, 0) ⟨1, 1, [[0]]⟩ none with e | m
  · rcases (delineate_catchment_spec (0, 0) ⟨1, 1, [[0]]⟩ none).1.mp ⟨e, hE⟩ with h | h
    · exact absurd (by decide) h
    · exact absurd h (by decide)
  · have hm := (delineate_catchment_spec (0, 0) ⟨1, 1, [[0]]⟩ none).2 m hE
    simp [Except.toOption, hm]

/-! ## Anatomy of the induced flow graph -/

theorem inb_iff (rows cols : Nat) (p : Int × Int) :
    inb rows cols p = true ↔
      0 ≤ p.1 ∧ p.1 < (rows : Int) ∧ 0 ≤ p.2 ∧ p.2 < (cols : Int) := by
  simp [inb, and_assoc]

theorem dir_to_offset_ne_zero (code : Nat) (off : Int × Int)
    (h : dir_to_offset code = some off) : ¬(off.1 = 0 ∧ off.2 = 0) := by
  rw [dir_to_offset] at h
  split_ifs at h <;> (cases h <;> decide)

/-- Unfolding of a successful `effTarget`: the source cell is valid, the
offset comes from its code, and the target is the in-bounds, valid cell at
that offset. -/
theorem effTarget_some_iff (rows cols : Nat) (fd : Grid Nat) (mask : Cell → Bool)
    (c t : Cell) :
    effTarget rows cols fd mask c = some t ↔
      ValidCell rows cols mask c ∧ fd.get c.1 c.2 ≠ 0 ∧
      ∃ off, dir_to_offset (fd.get c.1 c.2) = some off ∧
        inb rows cols ((c.1 : Int) + off.1, (c.2 : Int) + off.2) = true ∧
        mask (((c.1 : Int) + off.1).toNat, ((c.2 : Int) + off.2).toNat) = false ∧
        t = (((c.1 : Int) + off.1).toNat, ((c.2 : Int) + off.2).toNat) := by
  simp only [effTarget]
  by_cases h1 : c.1 < rows ∧ c.2 < cols ∧ mask c = false
  · rw [if_pos h1]
    by_cases h2 : fd.get c.1 c.2 = 0
    · rw [if_pos h2]
      simp [h2]
    · rw [if_neg h2]
      rcases hdo : dir_to_offset (fd.get c.1 c.2) with _ | off
      · simp only []
        constructor
        · intro h; cases h
        · rintro ⟨-, -, off2, hoff2, -⟩
          cases hoff2
      · simp only []
        by_cases h3 : inb rows cols ((c.1 : Int) + off.1, (c.2 : Int) + off.2) = true ∧
            mask (((c.1 : Int) + off.1).toNat, ((c.2 : Int) + off.2).toNat) = false
        · rw [if_pos h3]
          simp only [Option.some_inj]
          constructor
          · intro ht
            exact ⟨h1, h2, off, rfl, h3.1, h3.2, ht.symm⟩
          · rintro ⟨-, -, off2, hoff2, -, -, ht⟩
            cases hoff2
            exact ht.symm
        · rw [if_neg h3]
          constructor
          · intro h; cases h
          · rintro ⟨-, -, off2, hoff2, ha, hb, ht⟩
            cases hoff2
            exact absurd ⟨ha, hb⟩ h3
  · rw [if_neg h1]
    constructor
    · intro h; cases h
    · rintro ⟨hv, -⟩
      exact absurd hv h1

theorem effTarget_src_valid (rows cols : Nat) (fd : Grid Nat) (mask : Cell → Bool)
    (c t : Cell) (h : effTarget rows cols fd mask c = some t) :
    ValidCell rows cols mask c :=
  ((effTarget_some_iff rows cols fd mask c t).1 h).1

theorem effTarget_tgt_valid (rows cols : Nat) (fd : Grid Nat) (mask : Cell → Bool)
    (c t : Cell) (h : effTarget rows cols fd mask c = some t) :
    ValidCell rows cols mask t := by
  obtain ⟨-, -, off, -, hinb, hm, ht⟩ := (effTarget_some_iff rows cols fd mask c t).1 h
  rw [inb_iff] at hinb
  subst ht
  refine ⟨?_, ?_, hm⟩
  · omega
  · omega

theorem effTarget_ne_self (rows cols : Nat) (fd : Grid Nat) (mask : Cell → Bool)
    (c t : Cell) (h : effTarget rows cols fd mask c = some t) : t ≠ c := by
  obtain ⟨-, -, off, hoff, hinb, -, ht⟩ := (effTarget_some_iff rows cols fd mask c t).1 h
  rw [inb_iff] at hinb
  have hne := dir_to_offset_ne_zero _ _ hoff
  subst ht
  intro he
  have h1 : ((c.1 : Int) + off.1).toNat = c.1 := congrArg Prod.fst he
  have h2 : ((c.2 : Int) + off.2).toNat = c.2 := congrArg Prod.snd he
  exact hne ⟨by omega, by omega⟩

theorem dsIter_one (rows cols : Nat) (fd : Grid Nat) (mask : Cell → Bool) (c : Cell) :
    dsIter rows cols fd mask 1 c = effTarget rows cols fd mask c := by
  rcases h : effTarget rows cols fd mask c with _ | d <;> simp [dsIter, h]

theorem dsIter_add (rows cols : Nat) (fd : Grid Nat) (mask : Cell → Bool)
    (a b : Nat) (c : Cell) :
    dsIter rows cols fd mask (a + b) c
      = (dsIter rows cols fd mask a c).bind (dsIter rows cols fd mask b) := by
  induction a generalizing c with
  | zero => simp [dsIter]
  | succ n ih =>
    have hadd : n + 1 + b = (n + b) + 1 := by omega
    rw [hadd]
    show (match effTarget rows cols fd mask c with
      | none => none
      | some d => dsIter rows cols fd mask (n + b) d) = _
    rcases h : effTarget rows cols fd mask c with _ | d
    · simp [dsIter, h]
    · simp only [dsIter, h, ih d]

theorem dsIter_succ_back (rows cols : Nat) (fd : Grid Nat) (mask : Cell → Bool)
    (a : Nat) (c : Cell) :
    dsIter rows cols fd mask (a + 1) c
      = (dsIter rows cols fd mask a c).bind (effTarget rows cols fd mask) := by
  rw [dsIter_add]
  rcases h : dsIter rows cols fd mask a c with _ | d
  · rfl
  · simp [dsIter_one]

/-- Acyclicity follows from bounded termination: if every valid cell's
downstream path ends (reaches an outlet) within `rows*cols` steps, the
induced graph has no cycle.  This is how acyclicity is discharged on
concrete grids. -/
theorem acyclic_of_bounded (rows cols : Nat) (fd : Grid Nat) (mask : Cell → Bool)
    (h : ∀ c ∈ cellList rows cols, mask c = false →
      dsIter rows cols fd mask (rows * cols) c = none) :
    Acyclic rows cols fd mask := by
  intro c k hv hk hcyc
  have hpump : ∀ m, dsIter rows cols fd mask (m * k) c = some c := by
    intro m
    induction m with
    | zero => simp [dsIter]
    | succ n ih =>
      have : (n + 1) * k = n * k + k := by ring
      rw [this, dsIter_add, ih]
      exact hcyc
  have hmem : c ∈ cellList rows cols := (mem_cellList rows cols c).2 ⟨hv.1, hv.2.1⟩
  have hnone := h c hmem hv.2.2
  have hbig := hpump (rows * cols)
  have hge : rows * cols * k = rows * cols + (rows * cols * k - rows * cols) := by
    have : rows * cols ≤ rows * cols * k := Nat.le_mul_of_pos_right _ hk
    omega
  rw [hge, dsIter_add, hnone] at hbig
  cases hbig

/-! ## The reverse-flow adjacency builds as filters of the cell list -/

theorem upstream_map_eq_filter (rows cols : Nat) (fd : Grid Nat) (mask : Cell → Bool)
    (x : Cell) :
    upstream_map rows cols fd mask x
      = (cellList rows cols).filter
          (fun u => effTarget rows cols fd mask u = some x) := by
  suffices h : ∀ (l : List Cell) (m : Cell → List Cell),
      (l.foldl (fun m c =>
        match effTarget rows cols fd mask c with
        | none => m
        | some t => fun y => if y = t then m y ++ [c] else m y) m) x
        = m x ++ l.filter (fun u => effTarget rows cols fd mask u = some x) by
    simpa using h (cellList rows cols) (fun _ => [])
  intro l
  induction l with
  | nil => intro m; simp
  | cons u us ih =>
    intro m
    rw [List.foldl_cons, List.filter_cons]
    rcases he : effTarget rows cols fd mask u with _ | t
    · rw [ih]
      simp [he]
    · by_cases hx : x = t
      · subst hx
        rw [ih]
        simp [he]
      · rw [ih]
        simp [hx, show ¬(t = x) from fun h => hx h.symm]

theorem upstream_cells_eq_filter (fd : Grid Nat) (mask : Cell → Bool) (x : Cell) :
    upstream_cells fd mask x
      = (cellList fd.rows fd.cols).filter
          (fun u => rawTarget fd.rows fd.cols fd mask u = some x) := by
  suffices h : ∀ (l : List Cell) (m : Cell → List Cell),
      (l.foldl (fun m c =>
        match rawTarget fd.rows fd.cols fd mask c with
        | none => m
        | some t => fun y => if y = t then m y ++ [c] else m y) m) x
        = m x ++ l.filter (fun u => rawTarget fd.rows fd.cols fd mask u = some x) by
    simpa using h (cellList fd.rows fd.cols) (fun _ => [])
  intro l
  induction l with
  | nil => intro m; simp
  | cons u us ih =>
    intro m
    rw [List.foldl_cons, List.filter_cons]
    rcases he : rawTarget fd.rows fd.cols fd mask u with _ | t
    · rw [ih]
      simp [he]
    · by_cases hx : x = t
      · subst hx
        rw [ih]
        simp [he]
      · rw [ih]
        simp [hx, show ¬(t = x) from fun h => hx h.symm]

/-- `rawTarget` agrees with `effTarget` on targets known to be valid: the
only difference between the two is the NoData test on the target. -/
theorem rawTarget_eq_effTarget (rows cols : Nat) (fd : Grid Nat) (mask : Cell → Bool)
    (c x : Cell) (hx : mask x = false) :
    rawTarget rows cols fd mask c = some x ↔
      effTarget rows cols fd mask c = some x := by
  rw [rawTarget, effTarget]
  by_cases h1 : c.1 < rows ∧ c.2 < cols ∧ mask c = false
  · rw [if_pos h1, if_pos h1]
    by_cases h2 : fd.get c.1 c.2 = 0
    · rw [if_pos h2, if_pos h2]
    · rw [if_neg h2, if_neg h2]
      rcases hdo : dir_to_offset (fd.get c.1 c.2) with _ | off
      · simp
      · simp only []
        by_cases hb : inb rows cols ((c.1 : Int) + off.1, (c.2 : Int) + off.2) = true
        · rw [if_pos hb]
          by_cases hm :
              mask (((c.1 : Int) + off.1).toNat, ((c.2 : Int) + off.2).toNat) = false
          · rw [if_pos ⟨hb, hm⟩]
          · rw [if_neg (fun hc => hm hc.2)]
            constructor
            · intro he
              cases he
              exact absurd hx hm
            · intro he; cases he
        · rw [if_neg (by simpa using hb), if_neg (fun hc => hb hc.1)]
  · rw [if_neg h1, if_neg h1]

theorem mem_upstream_map (rows cols : Nat) (fd : Grid Nat) (mask : Cell → Bool)
    (x u : Cell) :
    u ∈ upstream_map rows cols fd mask x ↔
      effTarget rows cols fd mask u = some x := by
  rw [upstream_map_eq_filter, List.mem_filter]
  constructor
  · intro h
    simpa using h.2
  · intro h
    have hv := effTarget_src_valid rows cols fd mask u x h
    exact ⟨(mem_cellList rows cols u).2 ⟨hv.1, hv.2.1⟩, by simpa using h⟩

theorem upstream_map_nodup (rows cols : Nat) (fd : Grid Nat) (mask : Cell → Bool)
    (x : Cell) : (upstream_map rows cols fd mask x).Nodup := by
  rw [upstream_map_eq_filter]
  exact (cellList_nodup rows cols).filter _

/-- For a valid cell `x`, the `flow.py` adjacency (built without the
target-NoData check) lists exactly the valid cells whose flow direction
points to `x` — the cells of `upstreamOf`. -/
theorem upstream_cells_eq_upstreamOf (fd : Grid Nat) (mask : Cell → Bool) (x : Cell)
    (hx : mask x = false) :
    upstream_cells fd mask x = upstreamOf fd.rows fd.cols fd mask x := by
  rw [upstream_cells_eq_filter, upstreamOf]
  apply List.filter_congr
  intro u _
  simp only [decide_eq_decide]
  exact rawTarget_eq_effTarget fd.rows fd.cols fd mask u x hx

theorem mem_upstreamOf (rows cols : Nat) (fd : Grid Nat) (mask : Cell → Bool)
    (x u : Cell) :
    u ∈ upstreamOf rows cols fd mask x ↔ effTarget rows cols fd mask u = some x := by
  rw [upstreamOf, List.mem_filter]
  constructor
  · intro h
    simpa using h.2
  · intro h
    have hv := effTarget_src_valid rows cols fd mask u x h
    exact ⟨(mem_cellList rows cols u).2 ⟨hv.1, hv.2.1⟩, by simpa using h⟩

theorem upstreamOf_nodup (rows cols : Nat) (fd : Grid Nat) (mask : Cell → Bool)
    (x : Cell) : (upstreamOf rows cols fd mask x).Nodup :=
  (cellList_nodup rows cols).filter _

/-! ## Counting helpers and the pigeonhole cycle lemmas -/

theorem nodup_subset_length {l₁ l₂ : List Cell} (h₁ : l₁.Nodup) (hsub : l₁ ⊆ l₂) :
    l₁.length ≤ l₂.length :=
  (List.subperm_of_subset h₁ hsub).length_le

theorem nodup_valid_length_le (rows cols : Nat) (mask : Cell → Bool) (l : List Cell)
    (hnd : l.Nodup) (hval : ∀ c ∈ l, ValidCell rows cols mask c) :
    l.length ≤ validCount rows cols mask := by
  apply nodup_subset_length hnd
  intro c hc
  have hv := hval c hc
  rw [List.mem_filter]
  exact ⟨(mem_cellList rows cols c).2 ⟨hv.1, hv.2.1⟩, by simp [hv.2.2]⟩

theorem nodup_valid_length_lt (rows cols : Nat) (mask : Cell → Bool) (l : List Cell)
    (hnd : l.Nodup) (hval : ∀ c ∈ l, ValidCell rows cols mask c) (y : Cell)
    (hy : ValidCell rows cols mask y) (hyl : y ∉ l) :
    l.length < validCount rows cols mask := by
  have h := nodup_valid_length_le rows cols mask (l ++ [y])
    (by simp [List.nodup_append, hnd, hyl])
    (by
      intro c hc
      rcases List.mem_append.1 hc with h | h
      · exact hval c h
      · simp at h; subst h; exact hy)
  simpa using Nat.lt_of_lt_of_le (by simp) h

theorem exists_cycle_of_forward (rows cols : Nat) (fd : Grid Nat) (mask : Cell → Bool)
    (S : Cell → Prop) (f : Cell → Cell)
    (hS : ∀ x, S x → ValidCell rows cols mask x ∧ S (f x) ∧
      effTarget rows cols fd mask x = some (f x))
    (x₀ : Cell) (h₀ : S x₀) :
    ∃ x m, ValidCell rows cols mask x ∧ 0 < m ∧
      dsIter rows cols fd mask m x = some x := by
  have horb : ∀ n, S (f^[n] x₀) := by
    intro n
    induction n with
    | zero => exact h₀
    | succ k ih =>
      rw [Function.iterate_succ_apply']
      exact (hS _ ih).2.1
  have hchain : ∀ a b, dsIter rows cols fd mask a (f^[b] x₀) = some (f^[b + a] x₀) := by
    intro a
    induction a with
    | zero => intro b; simp [dsIter]
    | succ k ih =>
      intro b
      show (match effTarget rows cols fd mask (f^[b] x₀) with
        | none => none
        | some d => dsIter rows cols fd mask k d) = _
      rw [(hS _ (horb b)).2.2]
      have hfb : f (f^[b] x₀) = f^[b + 1] x₀ := (Function.iterate_succ_apply' f b x₀).symm
      rw [hfb]
      show dsIter rows cols fd mask k (f^[b + 1] x₀) = some (f^[b + (k + 1)] x₀)
      rw [ih (b + 1)]
      congr 2
      omega
  have hcard : ((cellList rows cols).toFinset).card < (Finset.range (rows * cols + 1)).card := by
    have h1 : ((cellList rows cols).toFinset).card ≤ (cellList rows cols).length :=
      (cellList rows cols).toFinset_card_le
    rw [length_cellList] at h1
    simp only [Finset.card_range]
    omega
  have hmap : ∀ n ∈ Finset.range (rows * cols + 1), f^[n] x₀ ∈ (cellList rows cols).toFinset := by
    intro n _
    have hv := (hS _ (horb n)).1
    rw [List.mem_toFinset]
    exact (mem_cellList rows cols _).2 ⟨hv.1, hv.2.1⟩
  obtain ⟨i, hi, j, hj, hij, heq⟩ :=
    Finset.exists_ne_map_eq_of_card_lt_of_maps_to hcard hmap
  rcases Nat.lt_or_ge i j with hlt | hge
  · refine ⟨f^[i] x₀, j - i, (hS _ (horb i)).1, by omega, ?_⟩
    rw [hchain (j - i) i]
    rw [show i + (j - i) = j by omega]
    rw [heq]
  · have hlt : j < i := by omega
    refine ⟨f^[j] x₀, i - j, (hS _ (horb j)).1, by omega, ?_⟩
    rw [hchain (i - j) j]
    rw [show j + (i - j) = i by omega]
    rw [heq]

theorem exists_cycle_of_backward (rows cols : Nat) (fd : Grid Nat) (mask : Cell → Bool)
    (S : Cell → Prop) (f : Cell → Cell)
    (hS : ∀ x, S x → ValidCell rows cols mask x ∧ S (f x) ∧
      effTarget rows cols fd mask (f x) = some x)
    (x₀ : Cell) (h₀ : S x₀) :
    ∃ x m, ValidCell rows cols mask x ∧ 0 < m ∧
      dsIter rows cols fd mask m x = some x := by
  have horb : ∀ n, S (f^[n] x₀) := by
    intro n
    induction n with
    | zero => exact h₀
    | succ k ih =>
      rw [Function.iterate_succ_apply']
      exact (hS _ ih).2.1
  have hchain : ∀ a b, dsIter rows cols fd mask a (f^[b + a] x₀) = some (f^[b] x₀) := by
    intro a
    induction a with
    | zero => intro b; simp [dsIter]
    | succ k ih =>
      intro b
      have hstep : f^[b + (k + 1)] x₀ = f (f^[b + k] x₀) := by
        rw [show b + (k + 1) = (b + k) + 1 by omega, Function.iterate_succ_apply']
      show (match effTarget rows cols fd mask (f^[b + (k + 1)] x₀) with
        | none => none
        | some d => dsIter rows cols fd mask k d) = _
      rw [hstep, (hS _ (horb (b + k))).2.2]
      show dsIter rows cols fd mask k (f^[b + k] x₀) = some (f^[b] x₀)
      exact ih b
  have hcard : ((cellList rows cols).toFinset).card < (Finset.range (rows * cols + 1)).card := by
    have h1 : ((cellList rows cols).toFinset).card ≤ (cellList rows cols).length :=
      (cellList rows cols).toFinset_card_le
    rw [length_cellList] at h1
    simp only [Finset.card_range]
    omega
  have hmap : ∀ n ∈ Finset.range (rows * cols + 1), f^[n] x₀ ∈ (cellList rows cols).toFinset := by
    intro n _
    have hv := (hS _ (horb n)).1
    rw [List.mem_toFinset]
    exact (mem_cellList rows cols _).2 ⟨hv.1, hv.2.1⟩
  obtain ⟨i, hi, j, hj, hij, heq⟩ :=
    Finset.exists_ne_map_eq_of_card_lt_of_maps_to hcard hmap
  rcases Nat.lt_or_ge i j with hlt | hge
  · refine ⟨f^[j] x₀, j - i, (hS _ (horb j)).1, by omega, ?_⟩
    have := hchain (j - i) i
    rw [show i + (j - i) = j by omega] at this
    rw [this, heq]
  · have hlt : j < i := by omega
    refine ⟨f^[i] x₀, i - j, (hS _ (horb i)).1, by omega, ?_⟩
    have := hchain (i - j) j
    rw [show j + (i - j) = i by omega] at this
    rw [this, heq]

/-- When the number of dequeued pointers of a valid cell `t` reaches its
full upstream count, every pointer of `t` has been dequeued. -/
theorem pointers_mem_of_countP_eq (fd : Grid Nat) (mask : Cell → Bool) (t : Cell)
    (hvt : ValidCell fd.rows fd.cols mask t) (l : List Cell) (hnd : l.Nodup)
    (hcount : l.countP (fun u => effTarget fd.rows fd.cols fd mask u = some t)
      = (upstream_cells fd mask t).length) :
    ∀ u, effTarget fd.rows fd.cols fd mask u = some t → u ∈ l := by
  intro u hu
  have hUeq := upstream_cells_eq_upstreamOf fd mask t hvt.2.2
  set p : Cell → Bool := fun u => decide (effTarget fd.rows fd.cols fd mask u = some t)
    with hp
  have hsub : l.filter p ⊆ upstreamOf fd.rows fd.cols fd mask t := by
    intro v hv
    rw [List.mem_filter] at hv
    rw [mem_upstreamOf]
    simpa [hp] using hv.2
  have hlen : (upstreamOf fd.rows fd.cols fd mask t).length ≤ (l.filter p).length := by
    rw [← List.countP_eq_length_filter]
    rw [← hUeq]
    omega
  have hperm := (List.subperm_of_subset (hnd.filter p) hsub).perm_of_length_le hlen
  have humem : u ∈ l.filter p := by
    rw [hperm.mem_iff, mem_upstreamOf]
    exact hu
  exact (List.mem_filter.1 humem).1

/-! ## Preservation of the Kahn invariant -/

theorem kahnInv_step_none (fd : Grid Nat) (mask : Cell → Bool) (popped rest : List Cell)
    (c : Cell) (acc indeg : Cell → Int)
    (hInv : KahnInv fd mask popped (c :: rest) acc indeg)
    (he : effTarget fd.rows fd.cols fd mask c = none) :
    KahnInv fd mask (popped ++ [c]) rest acc indeg := by
  obtain ⟨h1, h2, h3, h4, h5, h6⟩ := hInv
  have hshape : (popped ++ [c]) ++ rest = popped ++ c :: rest := by simp
  refine ⟨?_, ?_, ?_, ?_, ?_, ?_⟩
  · rw [hshape]; exact h1
  · intro x hx; exact h2 x (hshape ▸ hx)
  · intro x hx
    have := h3 x hx
    simp only [List.countP_append, List.countP_cons, List.countP_nil, he]
    simpa using this
  · intro x hx
    have := h4 x hx
    simpa [List.filter_append, he] using this
  · intro x hx u hu
    exact List.mem_append_left _ (h5 x (hshape ▸ hx) u hu)
  · intro x hx hz
    rw [hshape]
    exact h6 x hx hz

theorem kahnInv_step_some (fd : Grid Nat) (mask : Cell → Bool) (popped rest : List Cell)
    (c t : Cell) (acc indeg : Cell → Int)
    (hInv : KahnInv fd mask popped (c :: rest) acc indeg)
    (he : effTarget fd.rows fd.cols fd mask c = some t) :
    KahnInv fd mask (popped ++ [c])
      (if indeg t - 1 = 0 then rest ++ [t] else rest)
      (fun x => if x = t then acc x + acc c else acc x)
      (fun x => if x = t then indeg x - 1 else indeg x) := by
  obtain ⟨h1, h2, h3, h4, h5, h6⟩ := hInv
  have hvc : ValidCell fd.rows fd.cols mask c :=
    effTarget_src_valid fd.rows fd.cols fd mask c t he
  have hvt : ValidCell fd.rows fd.cols mask t :=
    effTarget_tgt_valid fd.rows fd.cols fd mask c t he
  have htc : t ≠ c := effTarget_ne_self fd.rows fd.cols fd mask c t he
  have hcnp : c ∉ popped := by
    intro hc
    exact (List.disjoint_of_nodup_append h1) hc (List.mem_cons_self c rest)
  have htpq : t ∉ popped ++ c :: rest := by
    intro ht
    exact hcnp (h5 t ht c he)
  have htp : t ∉ popped := fun h => htpq (List.mem_append_left _ h)
  have htr : t ∉ rest := fun h =>
    htpq (List.mem_append_right _ (List.mem_cons_of_mem c h))
  have hPnodup : (popped ++ [c]).Nodup :=
    List.Nodup.sublist
      (List.Sublist.append_left (List.Sublist.cons₂ c (List.nil_sublist rest)) popped) h1
  have hcount : ∀ x, (popped ++ [c]).countP
      (fun u => effTarget fd.rows fd.cols fd mask u = some x)
      = popped.countP (fun u => effTarget fd.rows fd.cols fd mask u = some x)
        + (if t = x then 1 else 0) := by
    intro x
    by_cases hx : t = x
    · subst hx
      simp [List.countP_append, List.countP_cons, he]
    · simp [List.countP_append, List.countP_cons, he, hx]
  refine ⟨?_, ?_, ?_, ?_, ?_, ?_⟩
  · split_ifs with hz
    · have hsh : (popped ++ [c]) ++ (rest ++ [t]) = (popped ++ c :: rest) ++ [t] := by
        simp
      rw [hsh]
      refine List.Nodup.append h1 (List.nodup_singleton t) ?_
      intro a ha hat
      simp only [List.mem_singleton] at hat
      subst hat
      exact htpq ha
    · have hsh : (popped ++ [c]) ++ rest = popped ++ c :: rest := by simp
      rw [hsh]; exact h1
  · intro x hx
    rcases List.mem_append.1 hx with hx1 | hx2
    · rcases List.mem_append.1 hx1 with h | h
      · exact h2 x (List.mem_append_left _ h)
      · simp only [List.mem_singleton] at h
        subst h
        exact h2 x (List.mem_append_right _ (List.mem_cons_self x rest))
    · split_ifs at hx2 with hz
      · rcases List.mem_append.1 hx2 with h | h
        · exact h2 x (List.mem_append_right _ (List.mem_cons_of_mem c h))
        · simp only [List.mem_singleton] at h
          subst h
          exact hvt
      · exact h2 x (List.mem_append_right _ (List.mem_cons_of_mem c hx2))
  · intro x hx
    have h3x := h3 x hx
    show (if x = t then indeg x - 1 else indeg x)
      = ((upstream_cells fd mask x).length : Int)
        - ((popped ++ [c]).countP
            (fun u => effTarget fd.rows fd.cols fd mask u = some x) : Int)
    rw [hcount x]
    by_cases hxt : x = t
    · rw [if_pos hxt, if_pos hxt.symm]
      have hsub : x = t := hxt
      subst hsub
      push_cast
      omega
    · rw [if_neg hxt, if_neg (fun h => hxt h.symm)]
      push_cast
      omega
  · intro x hx
    show (if x = t then acc x + acc c else acc x)
      = 1 + (((popped ++ [c]).filter
          (fun u => effTarget fd.rows fd.cols fd mask u = some x)).map
            (fun y => if y = t then acc y + acc c else acc y)).sum
    by_cases hxt : x = t
    · subst hxt
      rw [if_pos rfl]
      have hfil : (popped ++ [c]).filter
          (fun u => effTarget fd.rows fd.cols fd mask u = some x)
          = popped.filter (fun u => effTarget fd.rows fd.cols fd mask u = some x)
            ++ [c] := by
        simp [List.filter_append, he]
      rw [hfil, List.map_append, List.sum_append]
      have hmapeq : (popped.filter
          (fun u => effTarget fd.rows fd.cols fd mask u = some x)).map
            (fun y => if y = x then acc y + acc c else acc y)
          = (popped.filter
            (fun u => effTarget fd.rows fd.cols fd mask u = some x)).map acc := by
        apply List.map_congr_left
        intro a ha
        have hap : a ∈ popped := (List.mem_filter.1 ha).1
        rw [if_neg (fun h => htp (by rw [← h]; exact hap))]
      rw [hmapeq]
      have hca : (if c = x then acc c + acc c else acc c) = acc c :=
        if_neg (fun h => htc h.symm)
      simp only [List.map_cons, List.map_nil, List.sum_cons, List.sum_nil, hca]
      have h4x := h4 x hx
      omega
    · rw [if_neg hxt]
      have hfil : (popped ++ [c]).filter
          (fun u => effTarget fd.rows fd.cols fd mask u = some x)
          = popped.filter (fun u => effTarget fd.rows fd.cols fd mask u = some x) := by
        have hd : (decide (effTarget fd.rows fd.cols fd mask c = some x)) = false := by
          simp [he]
          exact fun h => hxt h.symm
        simp [List.filter_append, hd]
      rw [hfil]
      have hmapeq : (popped.filter
          (fun u => effTarget fd.rows fd.cols fd mask u = some x)).map
            (fun y => if y = t then acc y + acc c else acc y)
          = (popped.filter
            (fun u => effTarget fd.rows fd.cols fd mask u = some x)).map acc := by
        apply List.map_congr_left
        intro a ha
        have hap : a ∈ popped := (List.mem_filter.1 ha).1
        rw [if_neg (fun h => htp (by rw [← h]; exact hap))]
      rw [hmapeq]
      exact h4 x hx
  · intro x hx u hu
    have hgoal : u ∈ popped → u ∈ popped ++ [c] := fun h => List.mem_append_left _ h
    rcases List.mem_append.1 hx with hx1 | hx2
    · rcases List.mem_append.1 hx1 with h | h
      · exact hgoal (h5 x (List.mem_append_left _ h) u hu)
      · simp only [List.mem_singleton] at h
        subst h
        exact hgoal (h5 x (List.mem_append_right _ (List.mem_cons_self x rest)) u hu)
    · by_cases hxt : x = t
      · subst hxt
        split_ifs at hx2 with hz
        · have hsat : (popped ++ [c]).countP
              (fun u => effTarget fd.rows fd.cols fd mask u = some x)
              = (upstream_cells fd mask x).length := by
            have h3t := h3 x hvt
            rw [hcount x, if_pos rfl]
            omega
          exact pointers_mem_of_countP_eq fd mask x hvt (popped ++ [c]) hPnodup hsat u hu
        · exact absurd hx2 htr
      · have hxrest : x ∈ rest := by
          split_ifs at hx2 with hz
          · rcases List.mem_append.1 hx2 with h | h
            · exact h
            · simp only [List.mem_singleton] at h
              exact absurd h hxt
          · exact hx2
        exact hgoal (h5 x (List.mem_append_right _ (List.mem_cons_of_mem c hxrest)) u hu)
  · intro x hx hz
    by_cases hxt : x = t
    · subst hxt
      have hz' : indeg x - 1 = 0 := by
        simpa using hz
      rw [if_pos hz']
      exact List.mem_append_right _ (List.mem_append_right _ (List.mem_singleton_self x))
    · have hz' : indeg x = 0 := by
        simpa [hxt] using hz
      have hold := h6 x hx hz'
      rcases List.mem_append.1 hold with h | h
      · exact List.mem_append_left _ (List.mem_append_left _ h)
      · rcases List.mem_cons.1 h with h | h
        · subst h
          exact List.mem_append_left _ (List.mem_append_right _ (List.mem_singleton_self x))
        · refine List.mem_append_right _ ?_
          split_ifs
          · exact List.mem_append_left _ h
          · exact h

theorem kahnLoop_cons_none (fd : Grid Nat) (mask : Cell → Bool) (fuel : Nat)
    (c : Cell) (rest : List Cell) (acc indeg : Cell → Int) (processed : Nat)
    (he : effTarget fd.rows fd.cols fd mask c = none) :
    kahnLoop fd mask (fuel + 1) (c :: rest) acc indeg processed
      = kahnLoop fd mask fuel rest acc indeg (processed + 1) := by
  simp only [kahnLoop, he]

theorem kahnLoop_cons_some (fd : Grid Nat) (mask : Cell → Bool) (fuel : Nat)
    (c t : Cell) (rest : List Cell) (acc indeg : Cell → Int) (processed : Nat)
    (he : effTarget fd.rows fd.cols fd mask c = some t) :
    kahnLoop fd mask (fuel + 1) (c :: rest) acc indeg processed
      = kahnLoop fd mask fuel
          (if indeg t - 1 = 0 then rest ++ [t] else rest)
          (fun x => if x = t then acc x + acc c else acc x)
          (fun x => if x = t then indeg x - 1 else indeg x)
          (processed + 1) := by
  simp only [kahnLoop, he, if_true]

/-- Complete run of the Kahn queue loop: from any state satisfying the
invariant, with enough fuel the queue drains, the invariant holds of the
final (empty-queue) state, and the processed count is the number of
dequeued cells.  The `Cyc` predicate threads a cycle-avoidance argument
through the run: if every `Cyc` cell has a `Cyc` pointer, no `Cyc` cell is
ever enqueued (instantiate `Cyc := fun _ => False` when not needed). -/
theorem kahnLoop_run (fd : Grid Nat) (mask : Cell → Bool) (Cyc : Cell → Prop)
    (hCycPred : ∀ x, Cyc x → ∃ u, Cyc u ∧ effTarget fd.rows fd.cols fd mask u = some x) :
    ∀ (fuel : Nat) (popped queue : List Cell) (acc indeg : Cell → Int),
    KahnInv fd mask popped queue acc indeg →
    (∀ x ∈ popped ++ queue, ¬Cyc x) →
    validCount fd.rows fd.cols mask ≤ fuel + popped.length →
    ∃ (poppedT : List Cell) (acc2 indeg2 : Cell → Int),
      kahnLoop fd mask fuel queue acc indeg popped.length
        = (acc2, (popped ++ poppedT).length) ∧
      KahnInv fd mask (popped ++ poppedT) [] acc2 indeg2 ∧
      (∀ x ∈ popped ++ poppedT, ¬Cyc x) := by
  intro fuel
  induction fuel with
  | zero =>
    intro popped queue acc indeg hInv hNC hfuel
    have hq : queue = [] := by
      have hlen := nodup_valid_length_le fd.rows fd.cols mask (popped ++ queue)
        hInv.1 hInv.2.1
      rw [List.length_append] at hlen
      have : queue.length = 0 := by omega
      exact List.length_eq_zero.1 this
    subst hq
    exact ⟨[], acc, indeg, by simp [kahnLoop], by simpa using hInv, by simpa using hNC⟩
  | succ n ih =>
    intro popped queue acc indeg hInv hNC hfuel
    rcases queue with _ | ⟨c, rest⟩
    · exact ⟨[], acc, indeg, by simp [kahnLoop], by simpa using hInv, by simpa using hNC⟩
    have hlen1 : (popped ++ [c]).length = popped.length + 1 := by simp
    have hfuel' : validCount fd.rows fd.cols mask ≤ n + (popped ++ [c]).length := by
      rw [hlen1]; omega
    have hNCshift : ∀ (q' : List Cell), (∀ x ∈ q', x ∈ c :: rest) →
        ∀ x ∈ (popped ++ [c]) ++ q', ¬Cyc x := by
      intro q' hq' x hx
      refine hNC x ?_
      rcases List.mem_append.1 hx with h | h
      · rcases List.mem_append.1 h with h | h
        · exact List.mem_append_left _ h
        · simp only [List.mem_singleton] at h
          subst h
          exact List.mem_append_right _ (List.mem_cons_self x rest)
      · exact List.mem_append_right _ (hq' x h)
    rcases he : effTarget fd.rows fd.cols fd mask c with _ | t
    · -- dequeued cell with nothing downstream: state unchanged
      have hInv' := kahnInv_step_none fd mask popped rest c acc indeg hInv he
      obtain ⟨pT, acc2, indeg2, hrun, hInv2, hNC2⟩ :=
        ih (popped ++ [c]) rest acc indeg hInv'
          (hNCshift rest (fun x hx => List.mem_cons_of_mem c hx)) hfuel'
      have hsh : (popped ++ [c]) ++ pT = popped ++ (c :: pT) := by simp
      refine ⟨c :: pT, acc2, indeg2, ?_, ?_, ?_⟩
      · rw [kahnLoop_cons_none fd mask n c rest acc indeg popped.length he]
        rw [← hlen1, hrun, hsh]
      · rw [← hsh]; exact hInv2
      · rw [← hsh]; exact hNC2
    · -- dequeued cell with a valid downstream cell t
      have hInv' := kahnInv_step_some fd mask popped rest c t acc indeg hInv he
      by_cases hz : indeg t - 1 = 0
      · rw [if_pos hz] at hInv'
        have hNCt : ¬Cyc t := by
          intro hct
          obtain ⟨u, hcu, hue⟩ := hCycPred t hct
          have hmem : u ∈ popped ++ [c] :=
            hInv'.2.2.2.2.1 t
              (List.mem_append_right _ (List.mem_append_right _
                (List.mem_singleton_self t))) u hue
          rcases List.mem_append.1 hmem with h | h
          · exact hNC u (List.mem_append_left _ h) hcu
          · simp only [List.mem_singleton] at h
            subst h
            exact hNC u (List.mem_append_right _ (List.mem_cons_self u rest)) hcu
        have hNC' : ∀ x ∈ (popped ++ [c]) ++ (rest ++ [t]), ¬Cyc x := by
          intro x hx
          rcases List.mem_append.1 hx with h | h
          · exact hNCshift [] (by simp) x (by simpa using h)
          · rcases List.mem_append.1 h with h | h
            · exact hNC x (List.mem_append_right _ (List.mem_cons_of_mem c h))
            · simp only [List.mem_singleton] at h
              subst h
              exact hNCt
        obtain ⟨pT, acc2, indeg2, hrun, hInv2, hNC2⟩ :=
          ih (popped ++ [c]) (rest ++ [t])
            (fun x => if x = t then acc x + acc c else acc x)
            (fun x => if x = t then indeg x - 1 else indeg x)
            hInv' hNC' hfuel'
        have hsh : (popped ++ [c]) ++ pT = popped ++ (c :: pT) := by simp
        refine ⟨c :: pT, acc2, indeg2, ?_, ?_, ?_⟩
        · rw [kahnLoop_cons_some fd mask n c t rest acc indeg popped.length he]
          rw [if_pos hz, ← hlen1, hrun, hsh]
        · rw [← hsh]; exact hInv2
        · rw [← hsh]; exact hNC2
      · rw [if_neg hz] at hInv'
        obtain ⟨pT, acc2, indeg2, hrun, hInv2, hNC2⟩ :=
          ih (popped ++ [c]) rest
            (fun x => if x = t then acc x + acc c else acc x)
            (fun x => if x = t then indeg x - 1 else indeg x)
            hInv' (hNCshift rest (fun x hx => List.mem_cons_of_mem c hx)) hfuel'
        have hsh : (popped ++ [c]) ++ pT = popped ++ (c :: pT) := by simp
        refine ⟨c :: pT, acc2, indeg2, ?_, ?_, ?_⟩
        · rw [kahnLoop_cons_some fd mask n c t rest acc indeg popped.length he]
          rw [if_neg hz, ← hlen1, hrun, hsh]
        · rw [← hsh]; exact hInv2
        · rw [← hsh]; exact hNC2

theorem mem_upstream_cells_of_effTarget (fd : Grid Nat) (mask : Cell → Bool)
    (x u : Cell) (hx : mask x = false)
    (hu : effTarget fd.rows fd.cols fd mask u = some x) :
    u ∈ upstream_cells fd mask x := by
  rw [upstream_cells_eq_upstreamOf fd mask x hx, mem_upstreamOf]
  exact hu

/-- The initial state of `compute_flow_accumulation` satisfies the Kahn
invariant. -/
theorem kahnInv_init (fd : Grid Nat) (mask : Cell → Bool) :
    KahnInv fd mask [] (kahnQueueInit fd mask) (accInit mask) (indegInit fd mask) := by
  refine ⟨?_, ?_, ?_, ?_, ?_, ?_⟩
  · simpa [kahnQueueInit] using (cellList_nodup fd.rows fd.cols).filter _
  · intro c hc
    simp only [List.nil_append, kahnQueueInit, List.mem_filter] at hc
    obtain ⟨hcell, hcond⟩ := hc
    have hb := (mem_cellList fd.rows fd.cols c).1 hcell
    simp only [Bool.and_eq_true, Bool.not_eq_true'] at hcond
    exact ⟨hb.1, hb.2, hcond.1⟩
  · intro x hx
    simp [indegInit, hx.2.2]
  · intro x hx
    simp [accInit, hx.2.2]
  · intro x hx u hu
    simp only [List.nil_append, kahnQueueInit, List.mem_filter] at hx
    obtain ⟨hcell, hcond⟩ := hx
    simp only [Bool.and_eq_true, Bool.not_eq_true', decide_eq_true_eq] at hcond
    have hzero : (upstream_cells fd mask x).length = 0 := by
      have := hcond.2
      rw [indegInit, if_neg (by simp [hcond.1])] at this
      exact_mod_cast this
    have hmem := mem_upstream_cells_of_effTarget fd mask x u hcond.1 hu
    rw [List.length_eq_zero.1 hzero] at hmem
    cases hmem
  · intro x hx hz
    simp only [List.nil_append, kahnQueueInit, List.mem_filter]
    refine ⟨(mem_cellList fd.rows fd.cols x).2 ⟨hx.1, hx.2.1⟩, ?_⟩
    simp [hx.2.2, hz]

/-- Complete run of `compute_flow_accumulation`'s internals: the final
accumulation function together with the Kahn invariant on the list of
processed cells (the `Cyc` threading as in `kahnLoop_run`). -/
theorem flowAccumulationAux_run (fd : Grid Nat) (nodata_mask : Option (Grid Bool))
    (Cyc : Cell → Prop)
    (hCycPred : ∀ x, Cyc x → ∃ u, Cyc u ∧
      effTarget fd.rows fd.cols fd (maskOf nodata_mask) u = some x)
    (hCycValid : ∀ x, Cyc x → ValidCell fd.rows fd.cols (maskOf nodata_mask) x) :
    ∃ (popped : List Cell) (acc2 indeg2 : Cell → Int),
      flowAccumulationAux fd nodata_mask = (acc2, popped.length) ∧
      KahnInv fd (maskOf nodata_mask) popped [] acc2 indeg2 ∧
      (∀ x ∈ popped, ¬Cyc x) := by
  have hInv0 := kahnInv_init fd (maskOf nodata_mask)
  have hNC0 : ∀ x ∈ ([] : List Cell) ++ kahnQueueInit fd (maskOf nodata_mask), ¬Cyc x := by
    intro x hx hcx
    obtain ⟨u, hcu, hue⟩ := hCycPred x hcx
    cases hInv0.2.2.2.2.1 x hx u hue
  have hfuel : validCount fd.rows fd.cols (maskOf nodata_mask)
      ≤ fd.rows * fd.cols + ([] : List Cell).length := by
    have h1 : validCount fd.rows fd.cols (maskOf nodata_mask)
        ≤ (cellList fd.rows fd.cols).length := List.length_filter_le _ _
    rw [length_cellList] at h1
    simpa using h1
  obtain ⟨pT, acc2, indeg2, hrun, hInv2, hNC2⟩ :=
    kahnLoop_run fd (maskOf nodata_mask) Cyc hCycPred (fd.rows * fd.cols) []
      (kahnQueueInit fd (maskOf nodata_mask)) (accInit (maskOf nodata_mask))
      (indegInit fd (maskOf nodata_mask)) hInv0 hNC0 hfuel
  exact ⟨pT, acc2, indeg2, by simpa [flowAccumulationAux] using hrun,
    by simpa using hInv2, by simpa using hNC2⟩

/-- With an acyclic flow graph, the Kahn loop processes every valid cell. -/
theorem kahn_all_popped (fd : Grid Nat) (mask : Cell → Bool) (popped : List Cell)
    (acc2 indeg2 : Cell → Int) (hInv : KahnInv fd mask popped [] acc2 indeg2)
    (hacyc : Acyclic fd.rows fd.cols fd mask) :
    ∀ x, ValidCell fd.rows fd.cols mask x → x ∈ popped := by
  by_contra hcon
  push_neg at hcon
  obtain ⟨x₀, hvx₀, hnx₀⟩ := hcon
  have key : ∀ x, ValidCell fd.rows fd.cols mask x ∧ x ∉ popped →
      ∃ u, (ValidCell fd.rows fd.cols mask u ∧ u ∉ popped) ∧
        effTarget fd.rows fd.cols fd mask u = some x := by
    rintro x ⟨hvx, hnx⟩
    have hne : indeg2 x ≠ 0 := by
      intro h0
      exact hnx (by simpa using hInv.2.2.2.2.2 x hvx h0)
    have h3 := hInv.2.2.1 x hvx
    set p : Cell → Bool :=
      fun u => decide (effTarget fd.rows fd.cols fd mask u = some x) with hp
    have hnodup : popped.Nodup := by
      have := hInv.1
      simpa using this
    have hcle : popped.countP p ≤ (upstream_cells fd mask x).length := by
      rw [List.countP_eq_length_filter]
      apply nodup_subset_length (hnodup.filter p)
      intro u hu
      rw [List.mem_filter] at hu
      exact mem_upstream_cells_of_effTarget fd mask x u hvx.2.2
        (by simpa [hp] using hu.2)
    have hclt : popped.countP p < (upstream_cells fd mask x).length := by
      rcases Nat.lt_or_ge (popped.countP p) (upstream_cells fd mask x).length with h | h
      · exact h
      · exfalso
        apply hne
        rw [h3]
        omega
    have hex : ∃ u ∈ upstream_cells fd mask x, u ∉ popped := by
      by_contra hall
      push_neg at hall
      have hsub : upstream_cells fd mask x ⊆ popped.filter p := by
        intro u hu
        rw [List.mem_filter]
        refine ⟨hall u hu, ?_⟩
        rw [upstream_cells_eq_upstreamOf fd mask x hvx.2.2, mem_upstreamOf] at hu
        simp [hp, hu]
      have hnodupU : (upstream_cells fd mask x).Nodup := by
        rw [upstream_cells_eq_upstreamOf fd mask x hvx.2.2]
        exact upstreamOf_nodup fd.rows fd.cols fd mask x
      have := nodup_subset_length hnodupU hsub
      rw [← List.countP_eq_length_filter] at this
      omega
    obtain ⟨u, huU, hunp⟩ := hex
    have hue : effTarget fd.rows fd.cols fd mask u = some x := by
      rw [upstream_cells_eq_upstreamOf fd mask x hvx.2.2, mem_upstreamOf] at huU
      exact huU
    exact ⟨u, ⟨effTarget_src_valid fd.rows fd.cols fd mask u x hue, hunp⟩, hue⟩
  classical
  let f : Cell → Cell := fun x =>
    if h : ∃ u, (ValidCell fd.rows fd.cols mask u ∧ u ∉ popped) ∧
        effTarget fd.rows fd.cols fd mask u = some x then h.choose else x
  have hf : ∀ x, (ValidCell fd.rows fd.cols mask x ∧ x ∉ popped) →
      ValidCell fd.rows fd.cols mask x ∧
      (ValidCell fd.rows fd.cols mask (f x) ∧ f x ∉ popped) ∧
      effTarget fd.rows fd.cols fd mask (f x) = some x := by
    intro x hx
    have hex := key x hx
    refine ⟨hx.1, ?_, ?_⟩
    · show (ValidCell fd.rows fd.cols mask (dite _ _ _) ∧ (dite _ _ _) ∉ popped)
      rw [dif_pos hex]
      exact hex.choose_spec.1
    · show effTarget fd.rows fd.cols fd mask (dite _ _ _) = some x
      rw [dif_pos hex]
      exact hex.choose_spec.2
  obtain ⟨z, m, hvz, hm, hcyc⟩ :=
    exists_cycle_of_backward fd.rows fd.cols fd mask
      (fun x => ValidCell fd.rows fd.cols mask x ∧ x ∉ popped) f hf x₀ ⟨hvx₀, hnx₀⟩
  exact hacyc z m hvz hm hcyc

/-- C5: for every flow-direction grid whose induced flow graph is acyclic,
the raster returned by `compute_flow_accumulation` satisfies, at every
valid cell `c`, `accumulation[c] = 1 + Σ accumulation[u]` over the valid
cells `u` whose flow direction points to `c`. -/
theorem compute_flow_accumulation_upstream_sum (flow_direction : Grid Nat)
    (nodata_mask : Option (Grid Bool))
    (hacyc : Acyclic flow_direction.rows flow_direction.cols flow_direction
      (maskOf nodata_mask))
    (c : Cell)
    (hv : ValidCell flow_direction.rows flow_direction.cols (maskOf nodata_mask) c) :
    (compute_flow_accumulation flow_direction nodata_mask).get c.1 c.2
      = 1 + ((upstreamOf flow_direction.rows flow_direction.cols flow_direction
          (maskOf nodata_mask) c).map (fun u =>
            (compute_flow_accumulation flow_direction nodata_mask).get u.1 u.2)).sum := by
  obtain ⟨popped, acc2, indeg2, hrun, hInv, -⟩ :=
    flowAccumulationAux_run flow_direction nodata_mask (fun _ => False)
      (fun x hx => hx.elim) (fun x hx => hx.elim)
  have hall := kahn_all_popped flow_direction (maskOf nodata_mask) popped acc2 indeg2
    hInv hacyc
  have hget : ∀ x : Cell, x.1 < flow_direction.rows → x.2 < flow_direction.cols →
      (compute_flow_accumulation flow_direction nodata_mask).get x.1 x.2 = acc2 x := by
    intro x h1 h2
    rw [compute_flow_accumulation, Grid.get_ofFn _ _ _ _ _ h1 h2, hrun]
  have hnodup : popped.Nodup := by
    have := hInv.1
    simpa using this
  have hperm : (popped.filter (fun u =>
      effTarget flow_direction.rows flow_direction.cols flow_direction
        (maskOf nodata_mask) u = some c)).Perm
      (upstreamOf flow_direction.rows flow_direction.cols flow_direction
        (maskOf nodata_mask) c) := by
    rw [List.perm_ext_iff_of_nodup (hnodup.filter _)
      (upstreamOf_nodup flow_direction.rows flow_direction.cols flow_direction
        (maskOf nodata_mask) c)]
    intro u
    rw [List.mem_filter, mem_upstreamOf]
    constructor
    · intro h
      simpa using h.2
    · intro h
      refine ⟨hall u (effTarget_src_valid _ _ _ _ u c h), by simpa using h⟩
  have hsum : ((popped.filter (fun u =>
      effTarget flow_direction.rows flow_direction.cols flow_direction
        (maskOf nodata_mask) u = some c)).map acc2).sum
      = ((upstreamOf flow_direction.rows flow_direction.cols flow_direction
          (maskOf nodata_mask) c).map acc2).sum :=
    (hperm.map acc2).sum_eq
  have hmapget : ((upstreamOf flow_direction.rows flow_direction.cols flow_direction
      (maskOf nodata_mask) c).map (fun u =>
        (compute_flow_accumulation flow_direction nodata_mask).get u.1 u.2))
      = ((upstreamOf flow_direction.rows flow_direction.cols flow_direction
          (maskOf nodata_mask) c).map acc2) := by
    apply List.map_congr_left
    intro u hu
    rw [mem_upstreamOf] at hu
    have hvu := effTarget_src_valid _ _ _ _ u c hu
    exact hget u hvu.1 hvu.2.1
  rw [hget c hv.1 hv.2.1, hmapget, ← hsum]
  exact hInv.2.2.2.1 c hv

/-- C5 witness: the 1×2 flow grid `[[1, 0]]` (east, outlet) is acyclic; at
the outlet cell (0,1) the accumulation equals 1 plus its upstream sum. -/
theorem compute_flow_accumulation_upstream_sum_witness :
    (compute_flow_accumulation ⟨1, 2, [[1, 0]]⟩ none).get 0 1
      = 1 + ((upstreamOf 1 2 ⟨1, 2, [[1, 0]]⟩ (maskOf none) (0, 1)).map (fun u =>
          (compute_flow_accumulation ⟨1, 2, [[1, 0]]⟩ none).get u.1 u.2)).sum :=
  compute_flow_accumulation_upstream_sum ⟨1, 2, [[1, 0]]⟩ none
    (acyclic_of_bounded 1 2 ⟨1, 2, [[1, 0]]⟩ (maskOf none) (by decide)) (0, 1) (by decide)

/-- A directed cycle among valid cells keeps all of its cells out of the
Kahn queue forever, so the processed count falls short of the valid count. -/
theorem flowAccumulationProcessed_lt_of_cycle (fd : Grid Nat)
    (nodata_mask : Option (Grid Bool)) (c : Cell) (k : Nat) (hk : 0 < k)
    (hv : ValidCell fd.rows fd.cols (maskOf nodata_mask) c)
    (hcyc : dsIter fd.rows fd.cols fd (maskOf nodata_mask) k c = some c) :
    flowAccumulationProcessed fd nodata_mask
      < validCount fd.rows fd.cols (maskOf nodata_mask) := by
  set mask := maskOf nodata_mask with hmask
  set Cyc : Cell → Prop := fun x => ValidCell fd.rows fd.cols mask x ∧
    ∃ m, 0 < m ∧ dsIter fd.rows fd.cols fd mask m x = some x with hCyc
  have hCycPred : ∀ x, Cyc x → ∃ u, Cyc u ∧
      effTarget fd.rows fd.cols fd mask u = some x := by
    rintro x ⟨hvx, m, hm, hx⟩
    have hm1 : m = (m - 1) + 1 := by omega
    rw [hm1, dsIter_succ_back] at hx
    rcases hiter : dsIter fd.rows fd.cols fd mask (m - 1) x with _ | u
    · rw [hiter] at hx; cases hx
    · rw [hiter] at hx
      simp only [Option.some_bind] at hx
      refine ⟨u, ⟨effTarget_src_valid _ _ _ _ u x hx, m, hm, ?_⟩, hx⟩
      have : dsIter fd.rows fd.cols fd mask (1 + (m - 1)) u
          = (dsIter fd.rows fd.cols fd mask 1 u).bind
            (dsIter fd.rows fd.cols fd mask (m - 1)) := dsIter_add _ _ _ _ _ _ u
      rw [dsIter_one, hx] at this
      simp only [Option.some_bind] at this
      rw [show (1 : Nat) + (m - 1) = m by omega] at this
      rw [this, hiter]
  obtain ⟨popped, acc2, indeg2, hrun, hInv, hNC⟩ :=
    flowAccumulationAux_run fd nodata_mask Cyc hCycPred (fun x hx => hx.1)
  have hcnp : c ∉ popped := fun h => hNC c h ⟨hv, k, hk, hcyc⟩
  have hnodup : popped.Nodup := by
    have := hInv.1
    simpa using this
  have hvalid : ∀ x ∈ popped, ValidCell fd.rows fd.cols mask x := by
    intro x hx
    exact hInv.2.1 x (by simpa using hx)
  have hlt := nodup_valid_length_lt fd.rows fd.cols mask popped hnodup hvalid c hv hcnp
  rw [flowAccumulationProcessed, hrun]
  exact hlt

/-! ## The HAND BFS: seeds, preservation, and the full run -/

theorem dir_to_offset_total (code : Nat)
    (hmem : code ∈ [0, 1, 2, 4, 8, 16, 32, 64, 128]) (h0 : code ≠ 0) :
    ∃ off, dir_to_offset code = some off := by
  simp only [List.mem_cons, List.not_mem_nil, or_false] at hmem
  rcases hmem with rfl | rfl | rfl | rfl | rfl | rfl | rfl | rfl | rfl
  · exact absurd rfl h0
  all_goals exact ⟨_, rfl⟩

theorem isSeed_mask_false (rows cols : Nat) (fd : Grid Nat) (channel_mask : Grid Bool)
    (mask : Cell → Bool) (x : Cell)
    (h : isSeed rows cols fd channel_mask mask x = true) : mask x = false := by
  by_cases hm : mask x
  · rw [isSeed, if_pos hm] at h
    cases h
  · simpa using hm

/-- On a well-formed code grid, a valid non-seed cell always has a valid
in-bounds downstream cell. -/
theorem effTarget_of_not_seed (rows cols : Nat) (fd : Grid Nat)
    (channel_mask : Grid Bool) (mask : Cell → Bool) (x : Cell)
    (hcodes : codesValid rows cols fd)
    (hvx : ValidCell rows cols mask x)
    (hns : isSeed rows cols fd channel_mask mask x = false) :
    ∃ d, effTarget rows cols fd mask x = some d := by
  have hmask : mask x = false := hvx.2.2
  simp only [isSeed, hmask] at hns
  rw [if_neg (by simp)] at hns
  by_cases hch : channel_mask.get x.1 x.2
  · rw [if_pos hch] at hns
    cases hns
  · rw [if_neg hch] at hns
    by_cases h0 : fd.get x.1 x.2 = 0
    · rw [if_pos h0] at hns
      cases hns
    · rw [if_neg h0] at hns
      rcases hdo : dir_to_offset (fd.get x.1 x.2) with _ | off
      · obtain ⟨off, hoff⟩ := dir_to_offset_total (fd.get x.1 x.2)
          (hcodes x ((mem_cellList rows cols x).2 ⟨hvx.1, hvx.2.1⟩)) h0
        rw [hoff] at hdo
        cases hdo
      · rw [hdo] at hns
        simp only [Bool.or_eq_false_iff, Bool.not_eq_false'] at hns
        exact ⟨_, (effTarget_some_iff rows cols fd mask x _).2
          ⟨hvx, h0, off, hdo, hns.1, hns.2, rfl⟩⟩

theorem handStep_core (conditioned_dem : Grid ℚ) (fd : Grid Nat)
    (channel_mask : Grid Bool) (mask : Cell → Bool) (popped : List Cell) (c : Cell)
    (s : HandState) (u : Cell) (hcp : c ∈ popped)
    (hu : effTarget conditioned_dem.rows conditioned_dem.cols fd mask u = some c)
    (hCore : HandInvCore conditioned_dem fd channel_mask mask popped s) :
    HandInvCore conditioned_dem fd channel_mask mask popped (handStep conditioned_dem c s u) ∧
    (∀ v, s.proc v = true → (handStep conditioned_dem c s u).proc v = true) ∧
    (handStep conditioned_dem c s u).proc u = true ∧
    (∀ x ∈ (handStep conditioned_dem c s u).queue, x ∈ s.queue ∨ x = u) := by
  obtain ⟨h1, h2, h3, h4, h5, h6, h7, h9⟩ := hCore
  by_cases hpu : s.proc u = true
  · rw [handStep, if_pos hpu]
    exact ⟨⟨h1, h2, h3, h4, h5, h6, h7, h9⟩, fun v hv => hv, hpu,
      fun x hx => Or.inl hx⟩
  · have hpu' : s.proc u ≠ true := hpu
    rw [handStep, if_neg hpu']
    have hunm : u ∉ popped ++ s.queue := fun h => hpu ((h3 u).2 h)
    have hvu : ValidCell conditioned_dem.rows conditioned_dem.cols mask u :=
      effTarget_src_valid _ _ _ _ u c hu
    have hcproc : s.proc c = true := (h3 c).2 (List.mem_append_left _ hcp)
    have hcneu : c ≠ u := fun h => hpu (h ▸ hcproc)
    have hnseed : isSeed conditioned_dem.rows conditioned_dem.cols fd channel_mask mask u
        = false := by
      by_cases hs : isSeed conditioned_dem.rows conditioned_dem.cols fd channel_mask mask u
      · exact absurd (h5 u hvu hs) hpu
      · simpa using hs
    refine ⟨⟨?_, ?_, ?_, ?_, ?_, ?_, ?_, ?_⟩, ?_, ?_, ?_⟩
    · show (popped ++ (s.queue ++ [u])).Nodup
      rw [← List.append_assoc]
      refine List.Nodup.append h1 (List.nodup_singleton u) ?_
      intro a ha hau
      simp only [List.mem_singleton] at hau
      subst hau
      exact hunm ha
    · intro x hx
      rcases List.mem_append.1 hx with h | h
      · exact h2 x (List.mem_append_left _ h)
      · rcases List.mem_append.1 h with h | h
        · exact h2 x (List.mem_append_right _ h)
        · simp only [List.mem_singleton] at h
          subst h
          exact hvu
    · intro x
      show (if x = u then true else s.proc x) = true ↔ x ∈ popped ++ (s.queue ++ [u])
      by_cases hxu : x = u
      · subst hxu
        simp [if_pos rfl]
      · rw [if_neg hxu, h3 x]
        constructor
        · intro h
          rcases List.mem_append.1 h with h | h
          · exact List.mem_append_left _ h
          · exact List.mem_append_right _ (List.mem_append_left _ h)
        · intro h
          rcases List.mem_append.1 h with h | h
          · exact List.mem_append_left _ h
          · rcases List.mem_append.1 h with h | h
            · exact List.mem_append_right _ h
            · simp only [List.mem_singleton] at h
              exact absurd h hxu
    · show s.count + 1 = popped.length + (s.queue ++ [u]).length
      rw [List.length_append]
      simp only [List.length_singleton]
      omega
    · intro x hvx hsx
      show (if x = u then true else s.proc x) = true
      by_cases hxu : x = u
      · rw [if_pos hxu]
      · rw [if_neg hxu]
        exact h5 x hvx hsx
    · intro x hx hsx
      by_cases hxu : x = u
      · subst hxu
        rw [hsx] at hnseed
        cases hnseed
      · show (if x = u then _ else s.hand x) = 0
        rw [if_neg hxu]
        refine h6 x ?_ hsx
        have := hx
        show s.proc x = true
        simpa [if_neg hxu] using this
    · intro x hx hsx
      by_cases hxu : x = u
      · subst hxu
        refine ⟨c, hu, hcp, ?_⟩
        show (if x = x then _ else _) = max 0 (conditioned_dem.get x.1 x.2
          - conditioned_dem.get c.1 c.2 + (if c = x then _ else s.hand c))
        rw [if_pos rfl, if_neg hcneu]
      · have hpx : s.proc x = true := by
          simpa [if_neg hxu] using hx
        obtain ⟨d, hd1, hd2, hd3⟩ := h7 x hpx hsx
        have hdproc : s.proc d = true := (h3 d).2 (List.mem_append_left _ hd2)
        have hdneu : d ≠ u := fun h => hpu (h ▸ hdproc)
        refine ⟨d, hd1, hd2, ?_⟩
        show (if x = u then _ else s.hand x)
          = max 0 (conditioned_dem.get x.1 x.2 - conditioned_dem.get d.1 d.2
            + (if d = u then _ else s.hand d))
        rw [if_neg hxu, if_neg hdneu]
        exact hd3
    · intro x
      show 0 ≤ (if x = u then _ else s.hand x)
      by_cases hxu : x = u
      · rw [if_pos hxu]
        exact le_max_left 0 _
      · rw [if_neg hxu]
        exact h9 x
    · intro v hv
      show (if v = u then true else s.proc v) = true
      by_cases hvu : v = u
      · rw [if_pos hvu]
      · rw [if_neg hvu]; exact hv
    · show (if u = u then true else s.proc u) = true
      rw [if_pos rfl]
    · intro x hx
      rcases List.mem_append.1 hx with h | h
      · exact Or.inl h
      · simp only [List.mem_singleton] at h
        exact Or.inr h

theorem handFold_core (conditioned_dem : Grid ℚ) (fd : Grid Nat)
    (channel_mask : Grid Bool) (mask : Cell → Bool) (popped : List Cell) (c : Cell)
    (hcp : c ∈ popped) :
    ∀ (l : List Cell) (s : HandState),
    (∀ u ∈ l, effTarget conditioned_dem.rows conditioned_dem.cols fd mask u = some c) →
    HandInvCore conditioned_dem fd channel_mask mask popped s →
    HandInvCore conditioned_dem fd channel_mask mask popped
      (l.foldl (handStep conditioned_dem c) s) ∧
    (∀ v, s.proc v = true → (l.foldl (handStep conditioned_dem c) s).proc v = true) ∧
    (∀ u ∈ l, (l.foldl (handStep conditioned_dem c) s).proc u = true) ∧
    (∀ x ∈ (l.foldl (handStep conditioned_dem c) s).queue,
      x ∈ s.queue ∨ x ∈ l) := by
  intro l
  induction l with
  | nil =>
    intro s _ hCore
    exact ⟨hCore, fun v hv => hv, fun u hu => absurd hu (List.not_mem_nil u),
      fun x hx => Or.inl hx⟩
  | cons u us ih =>
    intro s hl hCore
    rw [List.foldl_cons]
    have hstep := handStep_core conditioned_dem fd channel_mask mask popped c s u hcp
      (hl u (List.mem_cons_self u us)) hCore
    obtain ⟨hCore', hmono', hu', hq'⟩ := hstep
    obtain ⟨hCore2, hmono2, hus2, hq2⟩ :=
      ih (handStep conditioned_dem c s u) (fun v hv => hl v (List.mem_cons_of_mem u hv))
        hCore'
    refine ⟨hCore2, ?_, ?_, ?_⟩
    · intro v hv
      exact hmono2 v (hmono' v hv)
    · intro v hv
      rcases List.mem_cons.1 hv with h | h
      · subst h
        exact hmono2 v hu'
      · exact hus2 v h
    · intro x hx
      rcases hq2 x hx with h | h
      · rcases hq' x h with h2 | h2
        · exact Or.inl h2
        · exact Or.inr (h2 ▸ List.mem_cons_self u us)
      · exact Or.inr (List.mem_cons_of_mem u h)

/-- Complete run of the HAND BFS: from any state satisfying the invariant,
with enough fuel the queue drains and the invariant holds of the final
state.  The `Cyc` predicate threads a cycle-avoidance argument: if `Cyc`
is closed under the downstream map, no `Cyc` cell is ever flagged beyond
the initial state (instantiate `Cyc := fun _ => False` when not needed). -/
theorem handLoop_run (conditioned_dem : Grid ℚ) (fd : Grid Nat)
    (channel_mask : Grid Bool) (mask : Cell → Bool) (Cyc : Cell → Prop)
    (hCycSucc : ∀ x, Cyc x → ∀ d,
      effTarget conditioned_dem.rows conditioned_dem.cols fd mask x = some d → Cyc d) :
    ∀ (fuel : Nat) (popped : List Cell) (s : HandState),
    HandInv conditioned_dem fd channel_mask mask popped s →
    (∀ x ∈ popped ++ s.queue, ¬Cyc x) →
    validCount conditioned_dem.rows conditioned_dem.cols mask ≤ fuel + popped.length →
    ∃ poppedT,
      (handLoop conditioned_dem
        (upstream_map conditioned_dem.rows conditioned_dem.cols fd mask) fuel s).queue
        = [] ∧
      HandInv conditioned_dem fd channel_mask mask (popped ++ poppedT)
        (handLoop conditioned_dem
          (upstream_map conditioned_dem.rows conditioned_dem.cols fd mask) fuel s) ∧
      (∀ x ∈ popped ++ poppedT, ¬Cyc x) := by
  intro fuel
  induction fuel with
  | zero =>
    intro popped s hInv hNC hfuel
    have hq : s.queue = [] := by
      have hlen := nodup_valid_length_le conditioned_dem.rows conditioned_dem.cols mask
        (popped ++ s.queue) hInv.1.1 hInv.1.2.1
      rw [List.length_append] at hlen
      exact List.length_eq_zero.1 (by omega)
    exact ⟨[], by simpa [handLoop] using hq, by simpa [handLoop] using hInv,
      fun x hx => hNC x (List.mem_append_left _ (by simpa using hx))⟩
  | succ n ih =>
    intro popped s hInv hNC hfuel
    rcases hq : s.queue with _ | ⟨c, rest⟩
    · have hstep : handLoop conditioned_dem
          (upstream_map conditioned_dem.rows conditioned_dem.cols fd mask) (n + 1) s
          = s := by
        simp only [handLoop, hq]
      exact ⟨[], by rw [hstep]; exact hq, by rw [hstep]; simpa using hInv,
        fun x hx => hNC x (List.mem_append_left _ (by simpa using hx))⟩
    · obtain ⟨hCore, hClosed⟩ := hInv
      obtain ⟨h1, h2, h3, h4, h5, h6, h7, h9⟩ := hCore
      have hshape : (popped ++ [c]) ++ rest = popped ++ c :: rest := by simp
      have hcq : c ∈ popped ++ s.queue :=
        List.mem_append_right _ (by rw [hq]; exact List.mem_cons_self c rest)
      -- the intermediate state after the pop, before the upstream fold
      have hCore' : HandInvCore conditioned_dem fd channel_mask mask (popped ++ [c])
          { s with queue := rest } := by
        refine ⟨?_, ?_, ?_, ?_, ?_, ?_, ?_, ?_⟩
        · show ((popped ++ [c]) ++ rest).Nodup
          rw [hshape, ← hq]
          exact h1
        · intro x hx
          refine h2 x ?_
          rw [hq]
          rw [hshape] at hx
          exact hx
        · intro x
          show s.proc x = true ↔ x ∈ (popped ++ [c]) ++ rest
          rw [hshape, ← hq]
          exact h3 x
        · show s.count = (popped ++ [c]).length + rest.length
          rw [h4, hq]
          simp
          omega
        · exact h5
        · exact h6
        · intro x hx hsx
          obtain ⟨d, hd1, hd2, hd3⟩ := h7 x hx hsx
          exact ⟨d, hd1, List.mem_append_left _ hd2, hd3⟩
        · exact h9
      have hcp : c ∈ popped ++ [c] :=
        List.mem_append_right _ (List.mem_singleton_self c)
      have hl : ∀ u ∈ upstream_map conditioned_dem.rows conditioned_dem.cols fd mask c,
          effTarget conditioned_dem.rows conditioned_dem.cols fd mask u = some c :=
        fun u hu => (mem_upstream_map _ _ _ _ c u).1 hu
      obtain ⟨hCore2, hmono2, hall2, hqprov2⟩ :=
        handFold_core conditioned_dem fd channel_mask mask (popped ++ [c]) c hcp
          (upstream_map conditioned_dem.rows conditioned_dem.cols fd mask c)
          { s with queue := rest } hl hCore'
      set s2 := (upstream_map conditioned_dem.rows conditioned_dem.cols fd mask c).foldl
        (handStep conditioned_dem c) { s with queue := rest } with hs2
      have hInv2 : HandInv conditioned_dem fd channel_mask mask (popped ++ [c]) s2 := by
        refine ⟨hCore2, ?_⟩
        intro d hd u hu
        rcases List.mem_append.1 hd with h | h
        · exact hmono2 u (hClosed d h u hu)
        · simp only [List.mem_singleton] at h
          subst h
          exact hall2 u ((mem_upstream_map _ _ _ _ d u).2 hu)
      have hNCc : ¬Cyc c := hNC c hcq
      have hNC2 : ∀ x ∈ (popped ++ [c]) ++ s2.queue, ¬Cyc x := by
        intro x hx
        rcases List.mem_append.1 hx with h | h
        · rcases List.mem_append.1 h with h | h
          · exact hNC x (List.mem_append_left _ h)
          · simp only [List.mem_singleton] at h
            subst h
            exact hNCc
        · rcases hqprov2 x h with h2 | h2
          · exact hNC x (List.mem_append_right _ (by rw [hq]; exact List.mem_cons_of_mem c h2))
          · intro hcx
            exact hNCc (hCycSucc x hcx c ((mem_upstream_map _ _ _ _ c x).1 h2))
      have hfuel2 : validCount conditioned_dem.rows conditioned_dem.cols mask
          ≤ n + (popped ++ [c]).length := by
        simp only [List.length_append, List.length_singleton]
        omega
      obtain ⟨pT, hq3, hInv3, hNC3⟩ := ih (popped ++ [c]) s2 hInv2 hNC2 hfuel2
      have hstep : handLoop conditioned_dem
          (upstream_map conditioned_dem.rows conditioned_dem.cols fd mask) (n + 1) s
          = handLoop conditioned_dem
            (upstream_map conditioned_dem.rows conditioned_dem.cols fd mask) n s2 := by
        simp only [handLoop, hq, handInner, hs2]
      have hsh2 : (popped ++ [c]) ++ pT = popped ++ (c :: pT) := by simp
      refine ⟨c :: pT, ?_, ?_, ?_⟩
      · rw [hstep]; exact hq3
      · rw [hstep, ← hsh2]; exact hInv3
      · rw [← hsh2]; exact hNC3

/-- Complete run of `compute_hand`'s internals: final state with empty
queue, the invariant over the processed cells, and `Cyc`-avoidance (cells
of a downstream-closed, seed-free predicate are never processed). -/
theorem computeHandAux_run (conditioned_dem : Grid ℚ) (fd : Grid Nat)
    (channel_mask : Grid Bool) (nodata_mask : Option (Grid Bool)) (Cyc : Cell → Prop)
    (hCycSucc : ∀ x, Cyc x → ∀ d,
      effTarget conditioned_dem.rows conditioned_dem.cols fd (maskOf nodata_mask) x
        = some d → Cyc d)
    (hCycNSeed : ∀ x, Cyc x →
      isSeed conditioned_dem.rows conditioned_dem.cols fd channel_mask
        (maskOf nodata_mask) x = false) :
    ∃ popped : List Cell,
      (computeHandAux conditioned_dem fd channel_mask nodata_mask).queue = [] ∧
      HandInv conditioned_dem fd channel_mask (maskOf nodata_mask) popped
        (computeHandAux conditioned_dem fd channel_mask nodata_mask) ∧
      (∀ x ∈ popped, ¬Cyc x) := by
  have hseedq : ∀ x ∈ handQueueInit conditioned_dem.rows conditioned_dem.cols fd
      channel_mask (maskOf nodata_mask),
      isSeed conditioned_dem.rows conditioned_dem.cols fd channel_mask
        (maskOf nodata_mask) x = true ∧ x.1 < conditioned_dem.rows ∧
        x.2 < conditioned_dem.cols := by
    intro x hx
    rw [handQueueInit, List.mem_filter] at hx
    have hb := (mem_cellList conditioned_dem.rows conditioned_dem.cols x).1 hx.1
    exact ⟨by simpa using hx.2, hb.1, hb.2⟩
  have hInv0 : HandInv conditioned_dem fd channel_mask (maskOf nodata_mask) []
      { hand := fun _ => 0,
        proc := fun c =>
          decide (c.1 < conditioned_dem.rows) && decide (c.2 < conditioned_dem.cols) &&
            isSeed conditioned_dem.rows conditioned_dem.cols fd channel_mask
              (maskOf nodata_mask) c,
        count := (handQueueInit conditioned_dem.rows conditioned_dem.cols fd channel_mask
          (maskOf nodata_mask)).length,
        queue := handQueueInit conditioned_dem.rows conditioned_dem.cols fd channel_mask
          (maskOf nodata_mask) } := by
    refine ⟨⟨?_, ?_, ?_, ?_, ?_, ?_, ?_, ?_⟩, ?_⟩
    · simpa [handQueueInit] using
        (cellList_nodup conditioned_dem.rows conditioned_dem.cols).filter _
    · intro x hx
      simp only [List.nil_append] at hx
      obtain ⟨hs, hb1, hb2⟩ := hseedq x hx
      exact ⟨hb1, hb2, isSeed_mask_false _ _ _ _ _ x hs⟩
    · intro x
      show (_ && _ && _) = true ↔ x ∈ [] ++ _
      simp only [List.nil_append, handQueueInit, List.mem_filter, mem_cellList,
        Bool.and_eq_true, decide_eq_true_eq]
    · simp
    · intro x hvx hsx
      show (_ && _ && _) = true
      simp only [Bool.and_eq_true, decide_eq_true_eq]
      exact ⟨⟨hvx.1, hvx.2.1⟩, hsx⟩
    · intro x _ _
      rfl
    · intro x hx hsx
      simp only [Bool.and_eq_true, decide_eq_true_eq] at hx
      rw [hx.2] at hsx
      cases hsx
    · intro x
      exact le_refl 0
    · intro d hd
      cases hd
  have hNC0 : ∀ x ∈ ([] : List Cell) ++ handQueueInit conditioned_dem.rows
      conditioned_dem.cols fd channel_mask (maskOf nodata_mask), ¬Cyc x := by
    intro x hx hcx
    simp only [List.nil_append] at hx
    have := hCycNSeed x hcx
    rw [(hseedq x hx).1] at this
    cases this
  have hfuel : validCount conditioned_dem.rows conditioned_dem.cols (maskOf nodata_mask)
      ≤ conditioned_dem.rows * conditioned_dem.cols + ([] : List Cell).length := by
    have h1 : validCount conditioned_dem.rows conditioned_dem.cols (maskOf nodata_mask)
        ≤ (cellList conditioned_dem.rows conditioned_dem.cols).length :=
      List.length_filter_le _ _
    rw [length_cellList] at h1
    simpa using h1
  obtain ⟨pT, hq2, hInv2, hNC2⟩ :=
    handLoop_run conditioned_dem fd channel_mask (maskOf nodata_mask) Cyc hCycSucc
      (conditioned_dem.rows * conditioned_dem.cols) [] _ hInv0 hNC0 hfuel
  exact ⟨pT, hq2, by simpa using hInv2, fun x hx => hNC2 x (by simpa using hx)⟩

/-- With valid codes and an acyclic flow graph, the HAND BFS flags every
valid cell. -/
theorem hand_all_flagged (conditioned_dem : Grid ℚ) (fd : Grid Nat)
    (channel_mask : Grid Bool) (mask : Cell → Bool) (popped : List Cell) (s : HandState)
    (hInv : HandInv conditioned_dem fd channel_mask mask popped s) (hq : s.queue = [])
    (hcodes : codesValid conditioned_dem.rows conditioned_dem.cols fd)
    (hacyc : Acyclic conditioned_dem.rows conditioned_dem.cols fd mask) :
    ∀ x, ValidCell conditioned_dem.rows conditioned_dem.cols mask x →
      s.proc x = true := by
  by_contra hcon
  push_neg at hcon
  obtain ⟨x₀, hvx₀, hnx₀⟩ := hcon
  replace hnx₀ : s.proc x₀ = false := by
    simpa using hnx₀
  obtain ⟨hCore, hClosed⟩ := hInv
  have key : ∀ x, ValidCell conditioned_dem.rows conditioned_dem.cols mask x ∧
      s.proc x = false →
      ∃ d, effTarget conditioned_dem.rows conditioned_dem.cols fd mask x = some d ∧
        ValidCell conditioned_dem.rows conditioned_dem.cols mask d ∧
        s.proc d = false := by
    rintro x ⟨hvx, hnx⟩
    have hnseed : isSeed conditioned_dem.rows conditioned_dem.cols fd channel_mask mask x
        = false := by
      by_cases hs : isSeed conditioned_dem.rows conditioned_dem.cols fd channel_mask
          mask x
      · rw [hCore.2.2.2.2.1 x hvx hs] at hnx
        cases hnx
      · simpa using hs
    obtain ⟨d, hd⟩ := effTarget_of_not_seed conditioned_dem.rows conditioned_dem.cols fd
      channel_mask mask x hcodes hvx hnseed
    refine ⟨d, hd, effTarget_tgt_valid _ _ _ _ x d hd, ?_⟩
    by_cases hpd : s.proc d = true
    · exfalso
      have hdmem := (hCore.2.2.1 d).1 hpd
      rw [hq] at hdmem
      simp only [List.append_nil] at hdmem
      rw [hClosed d hdmem x hd] at hnx
      cases hnx
    · simpa using hpd
  let f : Cell → Cell := fun x =>
    (effTarget conditioned_dem.rows conditioned_dem.cols fd mask x).getD x
  have hf : ∀ x, (ValidCell conditioned_dem.rows conditioned_dem.cols mask x ∧
      s.proc x = false) →
      ValidCell conditioned_dem.rows conditioned_dem.cols mask x ∧
      (ValidCell conditioned_dem.rows conditioned_dem.cols mask (f x) ∧
        s.proc (f x) = false) ∧
      effTarget conditioned_dem.rows conditioned_dem.cols fd mask x = some (f x) := by
    intro x hx
    obtain ⟨d, hd, hvd, hpd⟩ := key x hx
    have hfx : f x = d := by
      show (effTarget conditioned_dem.rows conditioned_dem.cols fd mask x).getD x = d
      rw [hd]
      rfl
    rw [hfx]
    exact ⟨hx.1, ⟨hvd, hpd⟩, hd⟩
  obtain ⟨z, m, hvz, hm, hzcyc⟩ :=
    exists_cycle_of_forward conditioned_dem.rows conditioned_dem.cols fd mask
      (fun x => ValidCell conditioned_dem.rows conditioned_dem.cols mask x ∧
        s.proc x = false) f hf x₀ ⟨hvx₀, hnx₀⟩
  exact hacyc z m hvz hm hzcyc

/-- C6: with valid flow-direction codes and an acyclic induced flow graph,
`compute_hand` returns a grid in which every seed cell (channel cell,
outlet with code 0, or cell draining off-grid or into NoData) has HAND 0,
every other valid cell satisfies
`hand[c] = max 0 (elevation[c] - elevation[downstream c] + hand[downstream c])`,
and HAND is nonnegative at every valid cell. -/
theorem compute_hand_spec (conditioned_dem : Grid ℚ) (flow_direction : Grid Nat)
    (channel_mask : Grid Bool) (nodata_mask : Option (Grid Bool))
    (hcodes : codesValid conditioned_dem.rows conditioned_dem.cols flow_direction)
    (hacyc : Acyclic conditioned_dem.rows conditioned_dem.cols flow_direction
      (maskOf nodata_mask))
    (c : Cell)
    (hv : ValidCell conditioned_dem.rows conditioned_dem.cols (maskOf nodata_mask) c) :
    (isSeed conditioned_dem.rows conditioned_dem.cols flow_direction channel_mask
        (maskOf nodata_mask) c = true →
      (compute_hand conditioned_dem flow_direction channel_mask nodata_mask).get c.1 c.2
        = 0) ∧
    (isSeed conditioned_dem.rows conditioned_dem.cols flow_direction channel_mask
        (maskOf nodata_mask) c = false →
      ∀ d, effTarget conditioned_dem.rows conditioned_dem.cols flow_direction
          (maskOf nodata_mask) c = some d →
        (compute_hand conditioned_dem flow_direction channel_mask nodata_mask).get c.1 c.2
          = max 0 (conditioned_dem.get c.1 c.2 - conditioned_dem.get d.1 d.2 +
            (compute_hand conditioned_dem flow_direction channel_mask nodata_mask).get
              d.1 d.2)) ∧
    0 ≤ (compute_hand conditioned_dem flow_direction channel_mask nodata_mask).get
      c.1 c.2 := by
  obtain ⟨popped, hq, hInv, -⟩ :=
    computeHandAux_run conditioned_dem flow_direction channel_mask nodata_mask
      (fun _ => False) (fun x hx => hx.elim) (fun x hx => hx.elim)
  have hproc := hand_all_flagged conditioned_dem flow_direction channel_mask
    (maskOf nodata_mask) popped
    (computeHandAux conditioned_dem flow_direction channel_mask nodata_mask)
    hInv hq hcodes hacyc
  obtain ⟨hCore, hClosed⟩ := hInv
  have hget : ∀ x : Cell, x.1 < conditioned_dem.rows → x.2 < conditioned_dem.cols →
      (compute_hand conditioned_dem flow_direction channel_mask nodata_mask).get x.1 x.2
        = (computeHandAux conditioned_dem flow_direction channel_mask
            nodata_mask).hand x := by
    intro x h1 h2
    rw [compute_hand, Grid.get_ofFn _ _ _ _ _ h1 h2]
  refine ⟨?_, ?_, ?_⟩
  · intro hseed
    rw [hget c hv.1 hv.2.1]
    exact hCore.2.2.2.2.2.1 c (hproc c hv) hseed
  · intro hnseed d hd
    obtain ⟨d', hd', hdp, hh⟩ := hCore.2.2.2.2.2.2.1 c (hproc c hv) hnseed
    have hdd : d = d' := by
      rw [hd] at hd'
      exact Option.some.inj hd'
    rw [← hdd] at hh
    have hvd := effTarget_tgt_valid conditioned_dem.rows conditioned_dem.cols
      flow_direction (maskOf nodata_mask) c d hd
    rw [hget c hv.1 hv.2.1, hget d hvd.1 hvd.2.1]
    exact hh
  · rw [hget c hv.1 hv.2.1]
    exact hCore.2.2.2.2.2.2.2 c

/-- C6 witness: the 1×2 DEM `[[2, 1]]` with flow directions `[[1, 0]]`
(east, outlet) and no channel has valid codes and an acyclic flow graph;
the theorem applies at the valid cell (0,0) and gives its HAND ≥ 0. -/
theorem compute_hand_spec_witness :
    ValidCell 1 2 (maskOf none) (0, 0) ∧
    (0 : ℚ) ≤ (compute_hand ⟨1, 2, [[2, 1]]⟩ ⟨1, 2, [[1, 0]]⟩
      ⟨1, 2, [[false, false]]⟩ none).get 0 0 :=
  ⟨by decide,
    (compute_hand_spec ⟨1, 2, [[2, 1]]⟩ ⟨1, 2, [[1, 0]]⟩ ⟨1, 2, [[false, false]]⟩ none
      (by unfold codesValid; decide) (acyclic_of_bounded 1 2 ⟨1, 2, [[1, 0]]⟩ (maskOf none) (by decide))
      (0, 0) (by decide)).2.2⟩

/-- C2 (amended): on a flow-direction grid whose induced graph contains a
directed cycle through valid cells, none of which is a HAND seed, both
traversals return normally — the source raises no error, it only logs the
counts — and both processed-cell counts fall strictly short of the
valid-cell count: the cycle's cells are silently omitted from the output. -/
theorem cycle_processed_counts_fall_short (conditioned_dem : Grid ℚ)
    (flow_direction : Grid Nat) (channel_mask : Grid Bool)
    (nodata_mask : Option (Grid Bool))
    (hr : conditioned_dem.rows = flow_direction.rows)
    (hc : conditioned_dem.cols = flow_direction.cols)
    (c : Cell) (k : Nat) (hk : 0 < k)
    (hv : ValidCell flow_direction.rows flow_direction.cols (maskOf nodata_mask) c)
    (hcyc : dsIter flow_direction.rows flow_direction.cols flow_direction
      (maskOf nodata_mask) k c = some c)
    (hseed : ∀ j ∈ List.range k, ∀ d ∈ (dsIter flow_direction.rows flow_direction.cols
        flow_direction (maskOf nodata_mask) j c).toList,
      isSeed flow_direction.rows flow_direction.cols flow_direction channel_mask
        (maskOf nodata_mask) d = false) :
    flowAccumulationProcessed flow_direction nodata_mask
      < validCount flow_direction.rows flow_direction.cols (maskOf nodata_mask) ∧
    (computeHandAux conditioned_dem flow_direction channel_mask nodata_mask).count
      < validCount conditioned_dem.rows conditioned_dem.cols (maskOf nodata_mask) := by
  constructor
  · exact flowAccumulationProcessed_lt_of_cycle flow_direction nodata_mask c k hk hv hcyc
  · rw [← hr, ← hc] at hv hcyc hseed
    set mask := maskOf nodata_mask with hmask
    set Cyc : Cell → Prop := fun x => ∃ j, j < k ∧
      dsIter conditioned_dem.rows conditioned_dem.cols flow_direction mask j c = some x
      with hCycDef
    have hCycSucc : ∀ x, Cyc x → ∀ d,
        effTarget conditioned_dem.rows conditioned_dem.cols flow_direction mask x
          = some d → Cyc d := by
      rintro x ⟨j, hj, hx⟩ d hd
      have hnext : dsIter conditioned_dem.rows conditioned_dem.cols flow_direction mask
          (j + 1) c = some d := by
        rw [dsIter_succ_back, hx]
        simpa using hd
      by_cases hjk : j + 1 < k
      · exact ⟨j + 1, hjk, hnext⟩
      · have hjeq : j + 1 = k := by omega
        rw [hjeq, hcyc] at hnext
        have hdc : d = c := (Option.some.inj hnext).symm
        subst hdc
        exact ⟨0, hk, rfl⟩
    have hCycNSeed : ∀ x, Cyc x →
        isSeed conditioned_dem.rows conditioned_dem.cols flow_direction channel_mask
          mask x = false := by
      rintro x ⟨j, hj, hx⟩
      exact hseed j (List.mem_range.2 hj) x (by rw [hx]; simp)
    obtain ⟨popped, hq, hInv, hNC⟩ :=
      computeHandAux_run conditioned_dem flow_direction channel_mask nodata_mask Cyc
        hCycSucc hCycNSeed
    obtain ⟨hCore, -⟩ := hInv
    have hcnp : c ∉ popped := fun h => hNC c h ⟨0, hk, rfl⟩
    have hnodup : popped.Nodup := by
      have h1 := hCore.1
      rw [hq] at h1
      simpa using h1
    have hvalid : ∀ x ∈ popped,
        ValidCell conditioned_dem.rows conditioned_dem.cols mask x := by
      intro x hx
      exact hCore.2.1 x (List.mem_append_left _ hx)
    have hcount : (computeHandAux conditioned_dem flow_direction channel_mask
        nodata_mask).count = popped.length := by
      have h4 := hCore.2.2.2.1
      rw [hq] at h4
      simpa using h4
    rw [hcount]
    exact nodup_valid_length_lt conditioned_dem.rows conditioned_dem.cols mask popped
      hnodup hvalid c hv hcnp

/-- C2 witness: the 1×2 flow grid `[[1, 16]]` (east, west) is a two-cell
cycle with no channel and no seed; the theorem applies with the cycle
witness c = (0,0), k = 2 and bounds the accumulation processed count. -/
theorem cycle_processed_counts_fall_short_witness :
    0 < 2 ∧
    flowAccumulationProcessed ⟨1, 2, [[1, 16]]⟩ none < validCount 1 2 (maskOf none) :=
  ⟨by decide,
    (cycle_processed_counts_fall_short ⟨1, 2, [[3, 4]]⟩ ⟨1, 2, [[1, 16]]⟩
      ⟨1, 2, [[false, false]]⟩ none rfl rfl (0, 0) 2 (by decide) (by decide)
      (by decide) (by decide)).1⟩

/-- C2 counterexample: on the cyclic 1×2 flow grid `[[1, 16]]` — each cell
points at the other, no channel cells — `compute_flow_accumulation` and
`compute_hand` return normally with 0 of the 2 valid cells processed by
either traversal; no error of any kind is raised. -/
theorem cycle_silently_tolerated :
    flowAccumulationProcessed ⟨1, 2, [[1, 16]]⟩ none = 0 ∧
    (computeHandAux ⟨1, 2, [[5, 6]]⟩ ⟨1, 2, [[1, 16]]⟩ ⟨1, 2, [[false, false]]⟩
      none).count = 0 ∧
    validCount 1 2 (maskOf none) = 2 := by
  refine ⟨by decide, ?_, by decide⟩
  decide
